import Mathlib

/-!
Verification of `photoprocessor/fields.py`: a JSON-backed text field
(`JSONField`) and an image field with derived thumbnail variants
(`ImageWithProcessorsField`).

The embedding works over `JVal`, a model of the Python/JSON values the field
stores.  Pure helpers of the source (`loads`, `dumps`, `save`, `delete`,
`__getitem__`, the descriptors, `pre_save`) are translated into Lean
functions; Python exceptions become an explicit `PyError`; the external
storage backend becomes an association list of named byte strings; the
external image transformer (`process_image`) is an explicit function
parameter.
-/

/-- A JSON-compatible Python value.  `dt s` stands for a `datetime`/`date`
whose canonical ISO string (the form `DjangoJSONEncoder` emits) is `s`;
`null` doubles as Python `None`. -/
inductive JVal : Type where
  | null
  | boolean (b : Bool)
  | num (n : Int)
  | str (s : String)
  | dt (s : String)
  | arr (xs : List JVal)
  | obj (kvs : List (String × JVal))

mutual
def beqJ : JVal → JVal → Bool
  | .null, .null => true
  | .boolean a, .boolean b => a == b
  | .num a, .num b => a == b
  | .str a, .str b => a == b
  | .dt a, .dt b => a == b
  | .arr xs, .arr ys => beqArr xs ys
  | .obj xs, .obj ys => beqObj xs ys
  | _, _ => false

def beqArr : List JVal → List JVal → Bool
  | [], [] => true
  | x :: xs, y :: ys => beqJ x y && beqArr xs ys
  | _, _ => false

def beqObj : List (String × JVal) → List (String × JVal) → Bool
  | [], [] => true
  | (k, v) :: xs, (k', v') :: ys => k == k' && beqJ v v' && beqObj xs ys
  | _, _ => false
end


/-! ## The serializer

Modelled from the spec: the JSON encode routine is an external collaborator
(`DjangoJSONEncoder`); we model it as a canonical compact serializer over
`JVal` (integers, double-quoted strings without escape sequences, `,` and
`:` separators), with date/time values rendered as their ISO string, which
is the behaviour the field code relies on. -/

/-- The character for the decimal digit `d`. -/
def digitChar (d : Nat) : Char := Char.ofNat (48 + d)

/-- Decimal digits of `n`, most significant first, as numbers. -/
def natDigs (n : Nat) : List Nat :=
  if n = 0 then [0] else (Nat.digits 10 n).reverse

/-- Decimal digit characters of `n`, most significant first. -/
def natChars (n : Nat) : List Char := (natDigs n).map digitChar

/-- Characters of an integer: optional minus sign, then decimal digits. -/
def intChars : Int → List Char
  | .ofNat m => natChars m
  | .negSucc m => '-' :: natChars (m + 1)

mutual
def enc : JVal → List Char
  | .null => ['n', 'u', 'l', 'l']
  | .boolean true => ['t', 'r', 'u', 'e']
  | .boolean false => ['f', 'a', 'l', 's', 'e']
  | .num n => intChars n
  | .str s => '"' :: s.data ++ ['"']
  | .dt s => '"' :: s.data ++ ['"']
  | .arr xs => '[' :: encItems xs
  | .obj kvs => '{' :: encFields kvs

def encItems : List JVal → List Char
  | [] => [']']
  | x :: t => enc x ++ encSep t

def encSep : List JVal → List Char
  | [] => [']']
  | x :: t => ',' :: (enc x ++ encSep t)

def encFields : List (String × JVal) → List Char
  | [] => ['}']
  | (k, v) :: t => '"' :: k.data ++ '"' :: ':' :: (enc v ++ encFSep t)

def encFSep : List (String × JVal) → List Char
  | [] => ['}']
  | (k, v) :: t => ',' :: '"' :: k.data ++ '"' :: ':' :: (enc v ++ encFSep t)
end

/-! ## The parser

Modelled from the spec: the JSON decode routine is an external collaborator
(`simplejson.JSONDecoder`); we model it as a strict recursive-descent parser
on the same grammar the serializer emits (it rejects trailing characters,
as the Python decoder does). -/

/-- Is `c` a decimal digit character. -/
def isDig (c : Char) : Bool := 48 ≤ c.toNat && c.toNat ≤ 57

/-- Does the input start with a digit (so it could extend a number token). -/
def headDig : List Char → Bool
  | [] => false
  | c :: _ => isDig c

/-- Longest digit prefix, as digit values, plus the remaining input. -/
def takeDigs : List Char → List Nat × List Char
  | [] => ([], [])
  | c :: cs =>
    if isDig c then
      let (ds, r) := takeDigs cs
      ((c.toNat - 48) :: ds, r)
    else ([], c :: cs)

/-- Scan a string body up to the closing double quote. -/
def grabStr : List Char → Option (List Char × List Char)
  | [] => none
  | c :: cs =>
    if c = '"' then some ([], cs)
    else (grabStr cs).map fun p => (c :: p.1, p.2)

/-- Strip an expected literal from the front of the input. -/
def stripLit : List Char → List Char → Option (List Char)
  | [], s => some s
  | c :: cs, d :: s => if c = d then stripLit cs s else none
  | _ :: _, [] => none

mutual
def pVal : Nat → List Char → Option (JVal × List Char)
  | 0, _ => none
  | _ + 1, [] => none
  | fuel + 1, c :: r =>
    if c = 'n' then (stripLit ['u', 'l', 'l'] r).map ((JVal.null, ·))
    else if c = 't' then (stripLit ['r', 'u', 'e'] r).map ((JVal.boolean true, ·))
    else if c = 'f' then (stripLit ['a', 'l', 's', 'e'] r).map ((JVal.boolean false, ·))
    else if c = '"' then (grabStr r).map fun p => (JVal.str ⟨p.1⟩, p.2)
    else if c = '[' then (pItems fuel r).map fun p => (JVal.arr p.1, p.2)
    else if c = '{' then (pFields fuel r).map fun p => (JVal.obj p.1, p.2)
    else if c = '-' then
      match takeDigs r with
      | ([], _) => none
      | (ds, r') => some (JVal.num (-(Nat.ofDigits 10 ds.reverse : Nat)), r')
    else if isDig c then
      match takeDigs (c :: r) with
      | (ds, r') => some (JVal.num (Nat.ofDigits 10 ds.reverse : Nat), r')
    else none

def pItems : Nat → List Char → Option (List JVal × List Char)
  | 0, _ => none
  | _ + 1, [] => none
  | fuel + 1, c :: r =>
    if c = ']' then some ([], r)
    else
      match pVal fuel (c :: r) with
      | none => none
      | some (v, r') =>
        match pSep fuel r' with
        | none => none
        | some (vs, r'') => some (v :: vs, r'')

def pSep : Nat → List Char → Option (List JVal × List Char)
  | 0, _ => none
  | _ + 1, [] => none
  | fuel + 1, c :: r =>
    if c = ']' then some ([], r)
    else if c = ',' then
      match pVal fuel r with
      | none => none
      | some (v, r') =>
        match pSep fuel r' with
        | none => none
        | some (vs, r'') => some (v :: vs, r'')
    else none

def pFields : Nat → List Char → Option (List (String × JVal) × List Char)
  | 0, _ => none
  | _ + 1, [] => none
  | fuel + 1, c :: r =>
    if c = '}' then some ([], r)
    else if c = '"' then
      match grabStr r with
      | none => none
      | some (k, r1) =>
        match r1 with
        | ':' :: r2 =>
          match pVal fuel r2 with
          | none => none
          | some (v, r3) =>
            match pFSep fuel r3 with
            | none => none
            | some (kvs, r4) => some ((⟨k⟩, v) :: kvs, r4)
        | _ => none
    else none

def pFSep : Nat → List Char → Option (List (String × JVal) × List Char)
  | 0, _ => none
  | _ + 1, [] => none
  | fuel + 1, c :: r =>
    if c = '}' then some ([], r)
    else if c = ',' then
      match r with
      | '"' :: r0 =>
        match grabStr r0 with
        | none => none
        | some (k, r1) =>
          match r1 with
          | ':' :: r2 =>
            match pVal fuel r2 with
            | none => none
            | some (v, r3) =>
              match pFSep fuel r3 with
              | none => none
              | some (kvs, r4) => some ((⟨k⟩, v) :: kvs, r4)
          | _ => none
      | _ => none
    else none
end

/-- `decoder.decode(text)`: parse a complete value, rejecting trailing
characters; `none` models the `ValueError` the Python decoder raises. -/
def jsonDecode (s : String) : Option JVal :=
  match pVal (s.data.length + 1) s.data with
  | some (v, []) => some v
  | _ => none

/-! ## `JSONField.dumps` and `JSONField.loads` (fields.py lines 84-100) -/

/-- `JSONField.dumps(data)`: `self.encoder.encode(data)`. -/
def JSONField.dumps (v : JVal) : String := ⟨enc v⟩

/-- `JSONField.loads(val)`: decode; if the decoded result is a string,
decode that string once more; any `ValueError` of either decode is caught
and yields `None` (modelled as `none`). -/
def JSONField.loads (s : String) : Option JVal :=
  match jsonDecode s with
  | none => none
  | some (.str t) => jsonDecode t
  | some v => some v

/-- Whether `JSONField.loads(s)` logs its warning: the source logs exactly
when the first decode succeeds with a string (the double-decode branch),
and logs nothing when decoding fails with `ValueError`. -/
def JSONField.loadsWarns (s : String) : Bool :=
  match jsonDecode s with
  | some (.str _) => true
  | _ => false

/-! ## Well-formed values and the canonical decode image -/

/-- Strings our serializer model is faithful for: no control characters, no
double quote, no backslash (the real encoder would escape those). -/
def wfStr (s : String) : Bool := s.data.all fun c => 32 ≤ c.toNat && c ≠ '"' && c ≠ '\\'

/-- Association-list keys are pairwise distinct (`obj` models a Python dict). -/
def keysFresh : List (String × JVal) → Bool
  | [] => true
  | (k, _) :: t => (t.all fun p => p.1 != k) && keysFresh t

mutual
def wfJ : JVal → Bool
  | .null => true
  | .boolean _ => true
  | .num _ => true
  | .str s => wfStr s
  | .dt s => wfStr s
  | .arr xs => wfArr xs
  | .obj kvs => keysFresh kvs && wfObj kvs

def wfArr : List JVal → Bool
  | [] => true
  | x :: t => wfJ x && wfArr t

def wfObj : List (String × JVal) → Bool
  | [] => true
  | (k, v) :: t => wfStr k && wfJ v && wfObj t
end

mutual
/-- What a value decodes back to after serialization: date/time values come
back as their ISO string, everything else is unchanged. -/
def canon : JVal → JVal
  | .null => .null
  | .boolean b => .boolean b
  | .num n => .num n
  | .str s => .str s
  | .dt s => .str s
  | .arr xs => .arr (canonArr xs)
  | .obj kvs => .obj (canonObj kvs)

def canonArr : List JVal → List JVal
  | [] => []
  | x :: t => canon x :: canonArr t

def canonObj : List (String × JVal) → List (String × JVal)
  | [] => []
  | (k, v) :: t => (k, canon v) :: canonObj t
end

/-! ## Python runtime model: errors, attribute slots, descriptors -/

/-- The Python exceptions this code can raise. -/
inductive PyError : Type where
  | valueError
  | keyError
  | attributeError
  | typeError
  deriving DecidableEq

/-- First-match lookup in an association list (Python `d[k]` / `k in d`). -/
def aget {α : Type} : List (String × α) → String → Option α
  | [], _ => none
  | (k', v) :: t, k => if k' = k then some v else aget t k

/-- Python `d[k] = v` on a dict modelled as an association list: replace the
first binding of `k`, else append. -/
def aset {α : Type} : List (String × α) → String → α → List (String × α)
  | [], k, v => [(k, v)]
  | (k', v') :: t, k, v => if k' = k then (k, v) :: t else (k', v') :: aset t k v

/-- One model-entity instance, as the two attribute slots the descriptors
touch: `instance.__dict__[field.attname]` and the cache attribute
`field.get_cache_name()`.  `none` models an absent attribute. -/
structure PyInstance where
  attSlot : Option JVal
  cacheSlot : Option JVal

/-- Is the value a Python dict. -/
def isDict : JVal → Bool
  | .obj _ => true
  | _ => false

/-- `self.field.loads(data)` as called by the descriptor on a non-dict slot
value: a string is decoded (`loads`, yielding Python `None` on failure,
which we model as `JVal.null`); calling the decoder on any other non-dict
value raises (uncaught) inside the decoder. -/
def pyLoads : JVal → Except PyError JVal
  | .str s => .ok ((JSONField.loads s).getD JVal.null)
  | _ => .error .typeError

/-- `JSONFieldDescriptor.__get__` (fields.py lines 23-35): on a cache miss,
read the raw attribute (default `{}`), decode unless it is already a dict,
store the result in the cache slot, and return the cached value. -/
def JSONFieldDescriptor.get (inst : PyInstance) : Except PyError (JVal × PyInstance) :=
  match inst.cacheSlot with
  | some d => .ok (d, inst)
  | none =>
    let raw := inst.attSlot.getD (JVal.obj [])
    if isDict raw then .ok (raw, { inst with cacheSlot := some raw })
    else
      match pyLoads raw with
      | .ok d => .ok (d, { inst with cacheSlot := some d })
      | .error e => .error e

/-- `JSONFieldDescriptor.__set__` (fields.py lines 37-39): store the raw
value in the attribute slot and eagerly in the cache slot. -/
def JSONFieldDescriptor.set (inst : PyInstance) (v : JVal) : PyInstance :=
  { attSlot := some v, cacheSlot := some v }

/-- In-place mutation of the cached document (what a caller does to the
object returned by a read); touches nothing but the cache slot's contents. -/
def cacheMutate (inst : PyInstance) (f : JVal → JVal) : PyInstance :=
  { inst with cacheSlot := inst.cacheSlot.map f }

/-! ## The image field model -/

/-- Transformed bytes: `process_image` output re-encoded by `img_to_fobj`
(both external); modelled as an abstract function from source bytes and
config to output bytes plus a format tag. -/
abbrev Transform : Type := List Nat → JVal → List Nat × String

/-- Schema-level state of an `ImageWithProcessorsField`: the declared
`thumbnails` mapping and the already-expanded upload directory
(`get_directory_name()` formats `upload_to` with the current time; the
timestamp expansion and the storage backend's `get_valid_name`
sanitization, both external, are modelled as fixed text). -/
structure FieldDef where
  thumbnails : List (String × JVal)
  directory : String

/-- `os.path.basename` / the tail of `name.split('/')`: everything after
the last slash. -/
def afterLastSlash (cs : List Char) : List Char :=
  (cs.reverse.takeWhile fun c => ¬(c = '/')).reverse

/-- `os.path.normpath` as `get_filename` applies it (fields.py line 212):
its argument there is the sanitized basename, which contains no slash, and
on a slash-free path `normpath` maps the empty string to `"."` and leaves
every other component (including `"."` and `".."`) unchanged. -/
def normpathBase (s : String) : String :=
  if s = "" then "." else s

/-- `ImageWithProcessorsField.generate_filename(instance, filename)`:
join of the formatted directory and the path-normalized sanitized
basename (fields.py lines 211-215). -/
def generate_filename (fld : FieldDef) (filename : String) : String :=
  fld.directory ++ "/" ++ normpathBase (String.mk (afterLastSlash filename.data))

/-- `name.split('.', 1)` when unpacked into two names: `none` models the
`ValueError` of unpacking a dotless single-element split. -/
def splitDot1 (cs : List Char) : Option (List Char × List Char) :=
  if '.' ∈ cs then some (cs.takeWhile (fun c => ¬(c = '.')),
                         (cs.dropWhile fun c => ¬(c = '.')).tail)
  else none

/-- The storage backend's collision avoidance (external contract: `save`
must return a free name): keep appending a suffix until the name is unused.
The fuel `files.length + 1` always suffices. -/
def availName (files : List (String × List Nat)) : Nat → String → String
  | 0, n => n
  | f + 1, n => if (aget files n).isSome then availName files f (n ++ "_") else n

/-- `storage.save(name, content)`: store under a free name derived from
`name` and return the stored name. -/
def storageSave (files : List (String × List Nat)) (name : String) (content : List Nat) :
    String × List (String × List Nat) :=
  let n := availName files (files.length + 1) name
  (n, files ++ [(n, content)])

/-- The mutable state an `ImageWithProcessorsFieldFile` touches: the decoded
Document (shared with the instance cache), the bound `name`, the `_size`
cache, the `_committed` flag, the storage backend's contents, and whether
`instance.save()` has been triggered. -/
structure FileState where
  data : List (String × JVal)
  name : Option String
  size : Option Nat
  committed : Bool
  storage : List (String × List Nat)
  instanceSaved : Bool

/-- The result of `ImageWithProcessorsFieldFile.save`: the final state, the
variant keys whose transform was invoked (in declaration order), and the
exception (if any) the call raised after its side effects so far. -/
structure SaveResult where
  st : FileState
  processed : List String
  err : Option PyError

/-- The per-variant loop of `save` (fields.py lines 138-150): for each
declared `(key, config)`, skip when the Document has an entry whose
`.get('config')` equals `config`; otherwise transform, store under
`<base>-<key>.<ext>` (collision-adjusted), and write
`{path: stored, config: config}` into the Document.  A non-dict entry makes
`self.data[key].get` raise `AttributeError`. -/
def runThumbs (tf : Transform) (fld : FieldDef) (bn be : String) (content : List Nat) :
    List (String × JVal) → FileState → List String → FileState × List String × Option PyError
  | [], st, proc => (st, proc, none)
  | (key, config) :: rest, st, proc =>
    match aget st.data key with
    | some (.obj kvs) =>
      if beqJ ((aget kvs "config").getD JVal.null) config then
        runThumbs tf fld bn be content rest st proc
      else
        let img := (tf content config).1
        let tn := generate_filename fld (bn ++ "-" ++ key ++ "." ++ be)
        let (stored, files') := storageSave st.storage tn img
        let st' := { st with storage := files',
                             data := aset st.data key
                               (JVal.obj [("path", JVal.str stored), ("config", config)]) }
        runThumbs tf fld bn be content rest st' (proc ++ [key])
    | some _ => (st, proc, some .attributeError)
    | none =>
      let img := (tf content config).1
      let tn := generate_filename fld (bn ++ "-" ++ key ++ "." ++ be)
      let (stored, files') := storageSave st.storage tn img
      let st' := { st with storage := files',
                           data := aset st.data key
                             (JVal.obj [("path", JVal.str stored), ("config", config)]) }
      runThumbs tf fld bn be content rest st' (proc ++ [key])

/-- `ImageWithProcessorsFieldFile.save(name, content, save)` (fields.py
lines 126-155): generate the filename, store the original, record it under
`Document["original"]`, update the size cache and committed flag, split the
generated name's basename on its first dot (raising `ValueError` if it has
none), re-open the stored original as the transform source, run the variant
loop, and finally trigger `instance.save()` when `save` is true. -/
def ImageWithProcessorsFieldFile.save (tf : Transform) (fld : FieldDef) (st : FileState)
    (name0 : String) (content : List Nat) (saveFlag : Bool) : SaveResult :=
  let name := generate_filename fld name0
  let (stored, files1) := storageSave st.storage name content
  let st1 := { st with storage := files1, name := some stored,
                       data := aset st.data "original" (JVal.str stored),
                       size := some content.length, committed := true }
  match splitDot1 (afterLastSlash name.data) with
  | none => { st := st1, processed := [], err := some .valueError }
  | some (bn, be) =>
    match runThumbs tf fld (String.mk bn) (String.mk be) content fld.thumbnails st1 [] with
    | (st2, proc, none) =>
      { st := (if saveFlag then { st2 with instanceSaved := true } else st2),
        processed := proc, err := none }
    | (st2, proc, some e) => { st := st2, processed := proc, err := some e }

/-- `storage.delete(name)`: remove the named blob. -/
def storageDelete (files : List (String × List Nat)) : Option String → List (String × List Nat)
  | none => files
  | some n => files.filter fun p => ¬(p.1 = n)

/-- `ImageWithProcessorsFieldFile.delete(save)` (fields.py lines 157-176):
release the handle, delete the original's stored name from storage, null
out `name` and `Document["original"]`, drop the size cache, mark
uncommitted, and trigger `instance.save()` when `save` is true. -/
def ImageWithProcessorsFieldFile.delete (st : FileState) (saveFlag : Bool) : FileState :=
  { st with storage := storageDelete st.storage st.name,
            name := none,
            data := aset st.data "original" JVal.null,
            size := none,
            committed := false,
            instanceSaved := st.instanceSaved || saveFlag }

/-- `ImageWithProcessorsFieldFile.__getitem__(key)` (fields.py lines
119-124): a declared key with an entry returns a `FieldFile` bound to the
entry's `'path'` value (`KeyError` when the entry, a dict, lacks `'path'`;
`TypeError` when it is not subscriptable); a declared key without an entry
returns a `FieldFile` bound to `None`; an undeclared key raises `KeyError`.
The result models the returned handle's bound name. -/
def ImageWithProcessorsFieldFile.getitem (fld : FieldDef) (data : List (String × JVal))
    (key : String) : Except PyError (Option JVal) :=
  if (aget fld.thumbnails key).isSome then
    match aget data key with
    | some (.obj kvs) =>
      match aget kvs "path" with
      | some p => .ok (some p)
      | none => .error .keyError
    | some _ => .error .typeError
    | none => .ok none
  else .error .keyError

/-- The wrapper state `ImageWithProcessorsFieldFile.__init__` builds: the
shared Document and the bound name `data.get('original', None)`. -/
structure MVFile where
  data : List (String × JVal)
  name : JVal

/-- `ImageWithProcessorsFieldFile.__init__(instance, field, data)` (fields.py
lines 114-117): reads `data.get('original', None)`, so a non-dict `data`
(in particular `None` from a failed decode) raises `AttributeError`. -/
def MVFile.mk? : JVal → Except PyError MVFile
  | .obj kvs => .ok ⟨kvs, (aget kvs "original").getD JVal.null⟩
  | _ => .error .attributeError

/-- `ImageWithProcessorsDesciptor.__get__` (fields.py lines 179-187):
delegate to the JSON descriptor's read, then wrap the result in the
field's `attr_class`. -/
def ImageWithProcessorsDesciptor.get (inst : PyInstance) :
    Except PyError (MVFile × PyInstance) :=
  match JSONFieldDescriptor.get inst with
  | .error e => .error e
  | .ok (d, inst') =>
    match MVFile.mk? d with
    | .error e => .error e
    | .ok f => .ok (f, inst')

/-- `ImageWithProcessorsDesciptor.__set__` (fields.py lines 189-192): the
body is `pass`; the assigned value is discarded and neither slot changes. -/
def ImageWithProcessorsDesciptor.set (inst : PyInstance) (_v : JVal) : PyInstance := inst

/-- `JSONField.pre_save` (fields.py lines 67-73) on a plain `JSONField`:
`getattr(model_instance, self.attname)` yields the decoded value itself
(a dict, or whatever the slot holds), which has no attribute `data`, so
`descriptor.data` raises `AttributeError`. -/
def JSONField.pre_save (inst : PyInstance) : Except PyError JVal :=
  match JSONFieldDescriptor.get inst with
  | .error e => .error e
  | .ok _ => .error .attributeError

/-- `JSONField.pre_save` as inherited by `ImageWithProcessorsField`: the
descriptor read yields the `ImageWithProcessorsFieldFile`, which has
`.data`; when that Document is not `None` it is returned.  In the fallback
branch the source evaluates `self.field.value_from_object`, but a
`JSONField` has no attribute `field`, so that branch raises
`AttributeError`. -/
def ImageWithProcessorsField.pre_save (inst : PyInstance) : Except PyError JVal :=
  match ImageWithProcessorsDesciptor.get inst with
  | .error e => .error e
  | .ok (f, _) =>
    if beqJ (JVal.obj f.data) JVal.null then .error .attributeError
    else .ok (.obj f.data)

/-- The skip test of the variant loop, exactly as the code phrases it:
`key in self.data and self.data[key].get('config') == config` (on a dict
entry; other entries never reach the comparison). -/
def skipB (data : List (String × JVal)) (k : String) (c : JVal) : Bool :=
  match aget data k with
  | some (.obj kvs) => beqJ ((aget kvs "config").getD JVal.null) c
  | _ => false

/-- Is the value a Python string (the type that triggers the decode retry;
a `dt` never appears in decoder output). -/
def isStrVal : JVal → Bool
  | .str _ => true
  | .dt _ => true
  | _ => false

/-! ## Concrete instances used to exercise the model -/

/-- A concrete image transform for closed evaluations. -/
def tfDemo : Transform := fun b _ => (0 :: b, "JPEG")

/-- `{small: cfg1, large: cfg2}` with `cfg1 = 1`, `cfg2 = 2`. -/
def fldDemo1 : FieldDef := ⟨[("small", JVal.num 1), ("large", JVal.num 2)], "up"⟩

/-- The same field after mutating the declaration to `small: cfg1' = 3`. -/
def fldDemo2 : FieldDef := ⟨[("small", JVal.num 3), ("large", JVal.num 2)], "up"⟩

/-- A fresh value: empty Document, nothing stored, nothing cached. -/
def fileState0 : FileState := ⟨[], none, none, false, [], false⟩

/-! ## Theorems: value equality -/

mutual
theorem beqJ_iff : ∀ a b, beqJ a b = true ↔ a = b
  | .null, b => by cases b <;> simp [beqJ]
  | .boolean x, b => by cases b <;> simp [beqJ]
  | .num x, b => by cases b <;> simp [beqJ]
  | .str x, b => by cases b <;> simp [beqJ]
  | .dt x, b => by cases b <;> simp [beqJ]
  | .arr xs, b => by cases b <;> simp [beqJ, beqArr_iff xs]
  | .obj xs, b => by cases b <;> simp [beqJ, beqObj_iff xs]

theorem beqArr_iff : ∀ xs ys, beqArr xs ys = true ↔ xs = ys
  | [], ys => by cases ys <;> simp [beqArr]
  | x :: xs, ys => by cases ys <;> simp [beqArr, beqJ_iff x, beqArr_iff xs]

theorem beqObj_iff : ∀ xs ys, beqObj xs ys = true ↔ xs = ys
  | [], ys => by cases ys <;> simp [beqObj]
  | (k, v) :: xs, ys => by
      cases ys with
      | nil => simp [beqObj]
      | cons hd tl =>
        obtain ⟨k', v'⟩ := hd
        simp [beqObj, beqJ_iff v, beqObj_iff xs, Prod.ext_iff]
end

/-! ## Round-trip helper lemmas -/

theorem digitChar_isDig (d : Nat) (h : d < 10) : isDig (digitChar d) = true := by
  interval_cases d <;> decide

theorem digitChar_toNat (d : Nat) (h : d < 10) : (digitChar d).toNat - 48 = d := by
  interval_cases d <;> decide

theorem natDigs_lt (n : Nat) : ∀ d ∈ natDigs n, d < 10 := by
  intro d hd
  unfold natDigs at hd
  split at hd
  · simp at hd; omega
  · rw [List.mem_reverse] at hd
    exact Nat.digits_lt_base (by omega) hd

theorem natDigs_ne_nil (n : Nat) : natDigs n ≠ [] := by
  unfold natDigs
  split
  · simp
  · simpa using Nat.digits_ne_nil_iff_ne_zero.mpr (by assumption)

theorem natDigs_val (n : Nat) : Nat.ofDigits 10 (natDigs n).reverse = n := by
  unfold natDigs
  split
  · simp [Nat.ofDigits]; omega
  · rw [List.reverse_reverse]; exact Nat.ofDigits_digits 10 n

theorem natDigs_cons (n : Nat) : ∃ d t, natDigs n = d :: t ∧ d < 10 := by
  match h : natDigs n with
  | [] => exact absurd h (natDigs_ne_nil n)
  | d :: t =>
      refine ⟨d, t, rfl, natDigs_lt n d ?_⟩
      rw [h]; exact List.mem_cons_self ..

theorem takeDigs_stop {cs : List Char} (h : headDig cs = false) : takeDigs cs = ([], cs) := by
  cases cs with
  | nil => rfl
  | cons c t => simp [takeDigs, show isDig c = false by simpa [headDig] using h]

theorem takeDigs_run (ds : List Nat) (hds : ∀ d ∈ ds, d < 10) (rest : List Char)
    (hrest : headDig rest = false) :
    takeDigs (ds.map digitChar ++ rest) = (ds, rest) := by
  induction ds with
  | nil => simpa using takeDigs_stop hrest
  | cons d t ih =>
      have hd : d < 10 := hds d (by simp)
      have ht := ih fun x hx => hds x (by simp [hx])
      simp [takeDigs, digitChar_isDig d hd, ht, digitChar_toNat d hd]

theorem isDig_excl {c : Char} (h : isDig c = true) :
    c ≠ 'n' ∧ c ≠ 't' ∧ c ≠ 'f' ∧ c ≠ '"' ∧ c ≠ '[' ∧ c ≠ '{' ∧ c ≠ '-' ∧
    c ≠ ']' ∧ c ≠ '}' ∧ c ≠ ',' ∧ c ≠ ':' := by
  refine ⟨?_, ?_, ?_, ?_, ?_, ?_, ?_, ?_, ?_, ?_, ?_⟩ <;>
    (rintro rfl; revert h; decide)

theorem grabStr_run (s rest : List Char) (h : '"' ∉ s) :
    grabStr (s ++ '"' :: rest) = some (s, rest) := by
  induction s with
  | nil => simp [grabStr]
  | cons c t ih =>
      have hc : ¬(c = '"') := fun e => h (e ▸ List.mem_cons_self c t)
      have ht := ih fun hm => h (List.mem_cons_of_mem _ hm)
      simp [grabStr, hc, ht]

theorem string_mk_data (s : String) : String.mk s.data = s := by cases s; rfl

/-! ## Serializer head and length facts -/

theorem wfStr_no_quote {s : String} (h : wfStr s = true) : '"' ∉ s.data := by
  intro hm
  have h2 := List.all_eq_true.mp h _ hm
  revert h2; decide

theorem enc_head (v : JVal) : ∃ c t, enc v = c :: t ∧ c ≠ ']' := by
  cases v with
  | null => exact ⟨'n', _, rfl, by decide⟩
  | boolean b => cases b with
      | true => exact ⟨'t', _, rfl, by decide⟩
      | false => exact ⟨'f', _, rfl, by decide⟩
  | num n => cases n with
      | ofNat m =>
          obtain ⟨d, t0, hnd, hdlt⟩ := natDigs_cons m
          refine ⟨digitChar d, t0.map digitChar, ?_, (isDig_excl (digitChar_isDig d hdlt)).2.2.2.2.2.2.2.1⟩
          simp [enc, intChars, natChars, hnd]
      | negSucc m => exact ⟨'-', _, rfl, by decide⟩
  | str s => exact ⟨'"', _, rfl, by decide⟩
  | dt s => exact ⟨'"', _, rfl, by decide⟩
  | arr xs => exact ⟨'[', _, rfl, by decide⟩
  | obj kvs => exact ⟨'{', _, rfl, by decide⟩

theorem enc_len_pos (v : JVal) : 1 ≤ (enc v).length := by
  obtain ⟨c, t, he, _⟩ := enc_head v
  simp [he]

theorem encSep_len_pos (xs : List JVal) : 1 ≤ (encSep xs).length := by
  cases xs <;> simp [encSep]

theorem encFSep_len_pos (kvs : List (String × JVal)) : 1 ≤ (encFSep kvs).length := by
  cases kvs with
  | nil => simp [encFSep]
  | cons kv t => obtain ⟨k, v⟩ := kv; simp [encFSep]

theorem encSep_headDig (xs : List JVal) (rest : List Char) :
    headDig (encSep xs ++ rest) = false := by
  cases xs <;> simp [encSep, headDig, isDig]

theorem encFSep_headDig (kvs : List (String × JVal)) (rest : List Char) :
    headDig (encFSep kvs ++ rest) = false := by
  cases kvs with
  | nil => simp [encFSep, headDig, isDig]
  | cons kv t => obtain ⟨k, v⟩ := kv; simp [encFSep, headDig, isDig]

/-! ## The codec round-trip -/

theorem pVal_quote (g : Nat) (r : List Char) :
    pVal (g + 1) ('"' :: r) = (grabStr r).map fun p => (JVal.str ⟨p.1⟩, p.2) := rfl

theorem pVal_lbrack (g : Nat) (r : List Char) :
    pVal (g + 1) ('[' :: r) = (pItems g r).map fun p => (JVal.arr p.1, p.2) := rfl

theorem pVal_lbrace (g : Nat) (r : List Char) :
    pVal (g + 1) ('{' :: r) = (pFields g r).map fun p => (JVal.obj p.1, p.2) := rfl

theorem pVal_dash (g : Nat) (r : List Char) :
    pVal (g + 1) ('-' :: r)
      = match takeDigs r with
        | ([], _) => none
        | (ds, r') => some (JVal.num (-(Nat.ofDigits 10 ds.reverse : Nat)), r') := rfl

theorem pItems_cons (g : Nat) (c : Char) (r : List Char) (h : ¬(c = ']')) :
    pItems (g + 1) (c :: r)
      = match pVal g (c :: r) with
        | none => none
        | some (v, r') =>
          match pSep g r' with
          | none => none
          | some (vs, r'') => some (v :: vs, r'') := by
  simp only [pItems, if_neg h]

theorem pSep_comma (g : Nat) (r : List Char) :
    pSep (g + 1) (',' :: r)
      = match pVal g r with
        | none => none
        | some (v, r') =>
          match pSep g r' with
          | none => none
          | some (vs, r'') => some (v :: vs, r'') := rfl

theorem pFields_key (g : Nat) (r : List Char) :
    pFields (g + 1) ('"' :: r)
      = match grabStr r with
        | none => none
        | some (k, r1) =>
          match r1 with
          | ':' :: r2 =>
            match pVal g r2 with
            | none => none
            | some (v, r3) =>
              match pFSep g r3 with
              | none => none
              | some (kvs, r4) => some ((⟨k⟩, v) :: kvs, r4)
          | _ => none := rfl

theorem pFSep_comma (g : Nat) (r : List Char) :
    pFSep (g + 1) (',' :: r)
      = match r with
        | '"' :: r0 =>
          match grabStr r0 with
          | none => none
          | some (k, r1) =>
            match r1 with
            | ':' :: r2 =>
              match pVal g r2 with
              | none => none
              | some (v, r3) =>
                match pFSep g r3 with
                | none => none
                | some (kvs, r4) => some ((⟨k⟩, v) :: kvs, r4)
            | _ => none
        | _ => none := rfl

mutual
theorem rt_val : ∀ (v : JVal) (fuel : Nat) (rest : List Char),
    (enc v).length < fuel → wfJ v = true → headDig rest = false →
    pVal fuel (enc v ++ rest) = some (canon v, rest)
  | .null, fuel, rest, hf, _, _ => by
      cases fuel with
      | zero => exact absurd hf (Nat.not_lt_zero _)
      | succ g => rfl
  | .boolean true, fuel, rest, hf, _, _ => by
      cases fuel with
      | zero => exact absurd hf (Nat.not_lt_zero _)
      | succ g => rfl
  | .boolean false, fuel, rest, hf, _, _ => by
      cases fuel with
      | zero => exact absurd hf (Nat.not_lt_zero _)
      | succ g => rfl
  | .num (Int.ofNat m), fuel, rest, hf, _, hr => by
      cases fuel with
      | zero => exact absurd hf (Nat.not_lt_zero _)
      | succ g =>
          obtain ⟨d, t0, hnd, hdlt⟩ := natDigs_cons m
          have hdig := digitChar_isDig d hdlt
          obtain ⟨hn, ht, hf2, hq, hbk, hbc, hm2, _, _, _, _⟩ := isDig_excl hdig
          have harg : enc (JVal.num (Int.ofNat m)) ++ rest
              = digitChar d :: (t0.map digitChar ++ rest) := by
            simp [enc, intChars, natChars, hnd]
          have htd : takeDigs (digitChar d :: (t0.map digitChar ++ rest)) = (d :: t0, rest) := by
            have h1 : ∀ x ∈ d :: t0, x < 10 := by
              intro x hx; exact natDigs_lt m x (by rw [hnd]; exact hx)
            simpa using takeDigs_run (d :: t0) h1 rest hr
          have hval : Nat.ofDigits 10 (d :: t0).reverse = m := by
            rw [← hnd]; exact natDigs_val m
          rw [harg]
          simp only [pVal]
          rw [if_neg hn, if_neg ht, if_neg hf2, if_neg hq, if_neg hbk, if_neg hbc,
              if_neg hm2, if_pos hdig, htd, hval]
          rfl
  | .num (Int.negSucc m), fuel, rest, hf, _, hr => by
      cases fuel with
      | zero => exact absurd hf (Nat.not_lt_zero _)
      | succ g =>
          obtain ⟨d, t0, hnd, _⟩ := natDigs_cons (m + 1)
          have harg : enc (JVal.num (Int.negSucc m)) ++ rest
              = '-' :: ((natDigs (m + 1)).map digitChar ++ rest) := by
            simp [enc, intChars, natChars]
          have htd := takeDigs_run (natDigs (m + 1)) (natDigs_lt (m + 1)) rest hr
          have hval : Nat.ofDigits 10 (d :: t0).reverse = m + 1 := by
            rw [← hnd]; exact natDigs_val (m + 1)
          have final : -((m + 1 : Nat) : Int) = Int.negSucc m := by
            rw [Int.negSucc_eq]; push_cast; ring
          rw [harg, pVal_dash, htd, hnd]
          simp only [hval, final]
          rfl
  | .str s, fuel, rest, hf, hw, _ => by
      cases fuel with
      | zero => exact absurd hf (Nat.not_lt_zero _)
      | succ g =>
          have hq := wfStr_no_quote (show wfStr s = true by simpa [wfJ] using hw)
          have harg : enc (JVal.str s) ++ rest = '"' :: (s.data ++ ('"' :: rest)) := by
            simp [enc]
          rw [harg, pVal_quote, grabStr_run s.data rest hq]
          simp only [Option.map_some', canon, string_mk_data]
  | .dt s, fuel, rest, hf, hw, _ => by
      cases fuel with
      | zero => exact absurd hf (Nat.not_lt_zero _)
      | succ g =>
          have hq := wfStr_no_quote (show wfStr s = true by simpa [wfJ] using hw)
          have harg : enc (JVal.dt s) ++ rest = '"' :: (s.data ++ ('"' :: rest)) := by
            simp [enc]
          rw [harg, pVal_quote, grabStr_run s.data rest hq]
          simp only [Option.map_some', canon, string_mk_data]
  | .arr xs, fuel, rest, hf, hw, _ => by
      cases fuel with
      | zero => exact absurd hf (Nat.not_lt_zero _)
      | succ g =>
          have hlen : (encItems xs).length < g := by
            have he : (enc (JVal.arr xs)).length = (encItems xs).length + 1 := by
              simp [enc]
            omega
          have key := rt_items xs g rest hlen (by simpa [wfJ] using hw)
          have harg : enc (JVal.arr xs) ++ rest = '[' :: (encItems xs ++ rest) := by
            simp [enc]
          rw [harg, pVal_lbrack, key]
          simp only [Option.map_some', canon]
  | .obj kvs, fuel, rest, hf, hw, _ => by
      cases fuel with
      | zero => exact absurd hf (Nat.not_lt_zero _)
      | succ g =>
          have hlen : (encFields kvs).length < g := by
            have he : (enc (JVal.obj kvs)).length = (encFields kvs).length + 1 := by
              simp [enc]
            omega
          have hwo : wfObj kvs = true := by
            simp [wfJ] at hw; exact hw.2
          have key := rt_fields kvs g rest hlen hwo
          have harg : enc (JVal.obj kvs) ++ rest = '{' :: (encFields kvs ++ rest) := by
            simp [enc]
          rw [harg, pVal_lbrace, key]
          simp only [Option.map_some', canon]
termination_by v fuel rest hf hw hr => sizeOf v

theorem rt_items : ∀ (xs : List JVal) (fuel : Nat) (rest : List Char),
    (encItems xs).length < fuel → wfArr xs = true →
    pItems fuel (encItems xs ++ rest) = some (canonArr xs, rest)
  | [], fuel, rest, hf, _ => by
      cases fuel with
      | zero => exact absurd hf (Nat.not_lt_zero _)
      | succ g => rfl
  | x :: t, fuel, rest, hf, hw => by
      cases fuel with
      | zero => exact absurd hf (Nat.not_lt_zero _)
      | succ g =>
          obtain ⟨c, t0, hexc, hcne⟩ := enc_head x
          simp only [wfArr, Bool.and_eq_true] at hw
          obtain ⟨hwx, hwt⟩ := hw
          have hlens : (encItems (x :: t)).length = (enc x).length + (encSep t).length := by
            simp [encItems]
          have hlx : (enc x).length < g := by
            have := encSep_len_pos t; omega
          have hls : (encSep t).length < g := by
            have := enc_len_pos x; omega
          have hv := rt_val x g (encSep t ++ rest) hlx hwx (encSep_headDig t rest)
          have hs := rt_sep t g rest hls hwt
          have harg : encItems (x :: t) ++ rest = c :: (t0 ++ (encSep t ++ rest)) := by
            simp [encItems, hexc]
          have hv' : pVal g (c :: (t0 ++ (encSep t ++ rest))) = some (canon x, encSep t ++ rest) := by
            rw [show c :: (t0 ++ (encSep t ++ rest)) = enc x ++ (encSep t ++ rest) from by
              rw [hexc]; simp]
            exact hv
          rw [harg, pItems_cons g c (t0 ++ (encSep t ++ rest)) hcne, hv']
          simp only [hs, canonArr]
termination_by xs fuel rest hf hw => sizeOf xs

theorem rt_sep : ∀ (xs : List JVal) (fuel : Nat) (rest : List Char),
    (encSep xs).length < fuel → wfArr xs = true →
    pSep fuel (encSep xs ++ rest) = some (canonArr xs, rest)
  | [], fuel, rest, hf, _ => by
      cases fuel with
      | zero => exact absurd hf (Nat.not_lt_zero _)
      | succ g => rfl
  | x :: t, fuel, rest, hf, hw => by
      cases fuel with
      | zero => exact absurd hf (Nat.not_lt_zero _)
      | succ g =>
          simp only [wfArr, Bool.and_eq_true] at hw
          obtain ⟨hwx, hwt⟩ := hw
          have hlens : (encSep (x :: t)).length = 1 + (enc x).length + (encSep t).length := by
            simp [encSep]; omega
          have hlx : (enc x).length < g := by
            have := encSep_len_pos t; omega
          have hls : (encSep t).length < g := by
            have := enc_len_pos x; omega
          have hv := rt_val x g (encSep t ++ rest) hlx hwx (encSep_headDig t rest)
          have hs := rt_sep t g rest hls hwt
          have harg : encSep (x :: t) ++ rest = ',' :: (enc x ++ (encSep t ++ rest)) := by
            simp [encSep]
          rw [harg, pSep_comma, hv]
          simp only [hs, canonArr]
termination_by xs fuel rest hf hw => sizeOf xs

theorem rt_fields : ∀ (kvs : List (String × JVal)) (fuel : Nat) (rest : List Char),
    (encFields kvs).length < fuel → wfObj kvs = true →
    pFields fuel (encFields kvs ++ rest) = some (canonObj kvs, rest)
  | [], fuel, rest, hf, _ => by
      cases fuel with
      | zero => exact absurd hf (Nat.not_lt_zero _)
      | succ g => rfl
  | (k, v) :: t, fuel, rest, hf, hw => by
      cases fuel with
      | zero => exact absurd hf (Nat.not_lt_zero _)
      | succ g =>
          simp only [wfObj, Bool.and_eq_true] at hw
          obtain ⟨⟨hwk, hwv⟩, hwt⟩ := hw
          have hlens : (encFields ((k, v) :: t)).length
              = 3 + k.data.length + (enc v).length + (encFSep t).length := by
            simp [encFields]; omega
          have hlv : (enc v).length < g := by
            have := encFSep_len_pos t; omega
          have hlt : (encFSep t).length < g := by
            have := enc_len_pos v; omega
          have hv := rt_val v g (encFSep t ++ rest) hlv hwv (encFSep_headDig t rest)
          have hs := rt_fsep t g rest hlt hwt
          have harg : encFields ((k, v) :: t) ++ rest
              = '"' :: (k.data ++ ('"' :: (':' :: (enc v ++ (encFSep t ++ rest))))) := by
            simp [encFields]
          rw [harg, pFields_key, grabStr_run k.data _ (wfStr_no_quote hwk)]
          simp only [hv, hs, canonObj, string_mk_data]
termination_by kvs fuel rest hf hw => sizeOf kvs

theorem rt_fsep : ∀ (kvs : List (String × JVal)) (fuel : Nat) (rest : List Char),
    (encFSep kvs).length < fuel → wfObj kvs = true →
    pFSep fuel (encFSep kvs ++ rest) = some (canonObj kvs, rest)
  | [], fuel, rest, hf, _ => by
      cases fuel with
      | zero => exact absurd hf (Nat.not_lt_zero _)
      | succ g => rfl
  | (k, v) :: t, fuel, rest, hf, hw => by
      cases fuel with
      | zero => exact absurd hf (Nat.not_lt_zero _)
      | succ g =>
          simp only [wfObj, Bool.and_eq_true] at hw
          obtain ⟨⟨hwk, hwv⟩, hwt⟩ := hw
          have hlens : (encFSep ((k, v) :: t)).length
              = 4 + k.data.length + (enc v).length + (encFSep t).length := by
            simp [encFSep]; omega
          have hlv : (enc v).length < g := by
            have := encFSep_len_pos t; omega
          have hlt : (encFSep t).length < g := by
            have := enc_len_pos v; omega
          have hv := rt_val v g (encFSep t ++ rest) hlv hwv (encFSep_headDig t rest)
          have hs := rt_fsep t g rest hlt hwt
          have harg : encFSep ((k, v) :: t) ++ rest
              = ',' :: ('"' :: (k.data ++ ('"' :: (':' :: (enc v ++ (encFSep t ++ rest)))))) := by
            simp [encFSep]
          rw [harg, pFSep_comma]
          simp only [grabStr_run k.data _ (wfStr_no_quote hwk), hv, hs, canonObj, string_mk_data]
termination_by kvs fuel rest hf hw => sizeOf kvs
end

/-! ## Association-list and loop lemmas -/

theorem aget_aset_self {α : Type} (l : List (String × α)) (k : String) (v : α) :
    aget (aset l k v) k = some v := by
  induction l with
  | nil => simp [aset, aget]
  | cons p t ih =>
      obtain ⟨k', v'⟩ := p
      by_cases h : k' = k
      · simp [aset, aget, h]
      · simp [aset, aget, h, ih]

theorem aget_aset_ne {α : Type} (l : List (String × α)) (k0 k : String) (v : α)
    (h : ¬(k0 = k)) : aget (aset l k0 v) k = aget l k := by
  induction l with
  | nil => simp [aset, aget, h]
  | cons p t ih =>
      obtain ⟨k', v'⟩ := p
      by_cases h' : k' = k0
      · simp [aset, aget, h']
        subst h'
        simp [h, aget]
      · simp [aset, aget, h', ih]

theorem aget_append_left {α : Type} (l l2 : List (String × α)) (k : String) (v : α)
    (h : aget l k = some v) : aget (l ++ l2) k = some v := by
  induction l with
  | nil => simp [aget] at h
  | cons p t ih =>
      obtain ⟨k', v'⟩ := p
      by_cases h' : k' = k
      · simpa [aget, h'] using h
      · rw [aget] at h
        simp [h'] at h
        simpa [aget, h'] using ih h

theorem skipB_congr (d1 d2 : List (String × JVal)) (k : String) (c : JVal)
    (h : aget d1 k = aget d2 k) : skipB d1 k c = skipB d2 k c := by
  unfold skipB
  rw [h]

theorem runThumbs_char (tf : Transform) (fld : FieldDef) (bn be : String) (content : List Nat) :
    ∀ (l : List (String × JVal)) (st : FileState) (proc : List String),
    (l.map Prod.fst).Nodup →
    (∀ p ∈ l, ∀ e, aget st.data p.1 = some e → isDict e = true) →
    (runThumbs tf fld bn be content l st proc).2.2 = none
    ∧ ((runThumbs tf fld bn be content l st proc).1.name = st.name
       ∧ (runThumbs tf fld bn be content l st proc).1.size = st.size
       ∧ (runThumbs tf fld bn be content l st proc).1.committed = st.committed
       ∧ (runThumbs tf fld bn be content l st proc).1.instanceSaved = st.instanceSaved)
    ∧ (∀ b ∈ st.storage, b ∈ (runThumbs tf fld bn be content l st proc).1.storage)
    ∧ (∀ k, k ∉ l.map Prod.fst →
        aget (runThumbs tf fld bn be content l st proc).1.data k = aget st.data k
        ∧ (k ∈ (runThumbs tf fld bn be content l st proc).2.1 ↔ k ∈ proc))
    ∧ (∀ p ∈ l,
        (skipB st.data p.1 p.2 = true →
          aget (runThumbs tf fld bn be content l st proc).1.data p.1 = aget st.data p.1
          ∧ (p.1 ∈ (runThumbs tf fld bn be content l st proc).2.1 ↔ p.1 ∈ proc))
        ∧ (skipB st.data p.1 p.2 = false →
          p.1 ∈ (runThumbs tf fld bn be content l st proc).2.1
          ∧ ∃ stored,
              aget (runThumbs tf fld bn be content l st proc).1.data p.1
                = some (JVal.obj [("path", JVal.str stored), ("config", p.2)])
              ∧ (stored, (tf content p.2).1)
                  ∈ (runThumbs tf fld bn be content l st proc).1.storage)) := by
  intro l
  induction l with
  | nil =>
      intro st proc _ _
      refine ⟨rfl, ⟨rfl, rfl, rfl, rfl⟩, ?_, ?_, ?_⟩
      · intro b hb; exact hb
      · intro k _; exact ⟨rfl, Iff.rfl⟩
      · intro p hp; exact absurd hp (List.not_mem_nil p)
  | cons hd rest ih =>
      intro st proc hnd hwf
      obtain ⟨key, config⟩ := hd
      simp only [List.map_cons, List.nodup_cons] at hnd
      obtain ⟨hkey, hndr⟩ := hnd
      cases hdk : aget st.data key with
      | some e =>
          have hde : isDict e = true := hwf (key, config) (by simp) e hdk
          cases e with
          | null => simp [isDict] at hde
          | boolean b => simp [isDict] at hde
          | num n => simp [isDict] at hde
          | str s => simp [isDict] at hde
          | dt s => simp [isDict] at hde
          | arr xs => simp [isDict] at hde
          | obj kvs =>
            by_cases hb : beqJ ((aget kvs "config").getD JVal.null) config = true
            · -- skip branch
              have hrun : runThumbs tf fld bn be content ((key, config) :: rest) st proc
                  = runThumbs tf fld bn be content rest st proc := by
                simp only [runThumbs, hdk]
                rw [if_pos hb]
              have IH := ih st proc hndr fun p hp e he => hwf p (by simp [hp]) e he
              rw [hrun]
              refine ⟨IH.1, IH.2.1, IH.2.2.1, ?_, ?_⟩
              · intro k hk
                simp only [List.map_cons, List.mem_cons, not_or] at hk
                exact IH.2.2.2.1 k hk.2
              · intro p hp
                rcases List.mem_cons.mp hp with hp1 | hp2
                · subst hp1
                  have hskip : skipB st.data key config = true := by
                    unfold skipB; rw [hdk]; exact hb
                  refine ⟨fun _ => IH.2.2.2.1 key hkey, fun hfalse => ?_⟩
                  rw [hskip] at hfalse
                  cases hfalse
                · exact IH.2.2.2.2 p hp2
            · -- regenerate branch (stale config)
              have hrun : runThumbs tf fld bn be content ((key, config) :: rest) st proc
                  = runThumbs tf fld bn be content rest
                      { st with
                        storage := (storageSave st.storage
                          (generate_filename fld (bn ++ "-" ++ key ++ "." ++ be))
                          (tf content config).1).2,
                        data := aset st.data key
                          (JVal.obj [("path", JVal.str (storageSave st.storage
                              (generate_filename fld (bn ++ "-" ++ key ++ "." ++ be))
                              (tf content config).1).1), ("config", config)]) }
                      (proc ++ [key]) := by
                simp only [runThumbs, hdk]
                rw [if_neg hb]
              have hskip : skipB st.data key config = false := by
                unfold skipB; rw [hdk]; simpa using hb
              rw [hrun]
              have hwf' : ∀ p ∈ rest, ∀ e,
                  aget (aset st.data key
                    (JVal.obj [("path", JVal.str (storageSave st.storage
                        (generate_filename fld (bn ++ "-" ++ key ++ "." ++ be))
                        (tf content config).1).1), ("config", config)])) p.1 = some e →
                  isDict e = true := by
                intro p hp e he
                have hne : ¬(key = p.1) := by
                  intro hcontra
                  exact hkey (hcontra ▸ List.mem_map_of_mem Prod.fst hp)
                rw [aget_aset_ne _ _ _ _ hne] at he
                exact hwf p (by simp [hp]) e he
              have IH := ih
                  { st with
                    storage := (storageSave st.storage
                      (generate_filename fld (bn ++ "-" ++ key ++ "." ++ be))
                      (tf content config).1).2,
                    data := aset st.data key
                      (JVal.obj [("path", JVal.str (storageSave st.storage
                          (generate_filename fld (bn ++ "-" ++ key ++ "." ++ be))
                          (tf content config).1).1), ("config", config)]) }
                  (proc ++ [key]) hndr hwf'
              refine ⟨IH.1, ?_, ?_, ?_, ?_⟩
              · exact ⟨IH.2.1.1, IH.2.1.2.1, IH.2.1.2.2.1, IH.2.1.2.2.2⟩
              · intro b hbm
                refine IH.2.2.1 b ?_
                simp only [storageSave]
                exact List.mem_append_left _ hbm
              · intro k hk
                simp only [List.map_cons, List.mem_cons, not_or] at hk
                have h1 := IH.2.2.2.1 k hk.2
                constructor
                · rw [h1.1]
                  exact aget_aset_ne _ _ _ _ (fun e => hk.1 e.symm)
                · rw [h1.2]
                  simp [hk.1]
              · intro p hp
                rcases List.mem_cons.mp hp with hp1 | hp2
                · subst hp1
                  refine ⟨fun htrue => ?_, fun _ => ?_⟩
                  · rw [hskip] at htrue; cases htrue
                  · have h1 := IH.2.2.2.1 key hkey
                    constructor
                    · rw [h1.2]; simp
                    · refine ⟨(storageSave st.storage
                        (generate_filename fld (bn ++ "-" ++ key ++ "." ++ be))
                        (tf content config).1).1, ?_, ?_⟩
                      · rw [h1.1]
                        exact aget_aset_self _ _ _
                      · refine IH.2.2.1 _ ?_
                        simp [storageSave]
                · have hne : ¬(key = p.1) := by
                    intro hcontra
                    exact hkey (hcontra ▸ List.mem_map_of_mem Prod.fst hp2)
                  have hagree : aget (aset st.data key
                      (JVal.obj [("path", JVal.str (storageSave st.storage
                          (generate_filename fld (bn ++ "-" ++ key ++ "." ++ be))
                          (tf content config).1).1), ("config", config)])) p.1
                      = aget st.data p.1 := aget_aset_ne _ _ _ _ hne
                  have hsk := skipB_congr _ _ p.1 p.2 hagree
                  have h2 := IH.2.2.2.2 p hp2
                  have hne3 : ¬(p.1 = key) := fun e =>
                    hkey (e ▸ List.mem_map_of_mem Prod.fst hp2)
                  constructor
                  · intro htrue
                    have h3 := h2.1 (by rw [hsk]; exact htrue)
                    constructor
                    · rw [h3.1]; exact hagree
                    · rw [h3.2]; simp [hne3]
                  · intro hfalse
                    have h3 := h2.2 (by rw [hsk]; exact hfalse)
                    exact ⟨h3.1, h3.2⟩
      | none =>
          -- regenerate branch (no entry yet)
          have hrun : runThumbs tf fld bn be content ((key, config) :: rest) st proc
              = runThumbs tf fld bn be content rest
                  { st with
                    storage := (storageSave st.storage
                      (generate_filename fld (bn ++ "-" ++ key ++ "." ++ be))
                      (tf content config).1).2,
                    data := aset st.data key
                      (JVal.obj [("path", JVal.str (storageSave st.storage
                          (generate_filename fld (bn ++ "-" ++ key ++ "." ++ be))
                          (tf content config).1).1), ("config", config)]) }
                  (proc ++ [key]) := by
            simp only [runThumbs, hdk]
          have hskip : skipB st.data key config = false := by
            unfold skipB; rw [hdk]
          rw [hrun]
          have hwf' : ∀ p ∈ rest, ∀ e,
              aget (aset st.data key
                (JVal.obj [("path", JVal.str (storageSave st.storage
                    (generate_filename fld (bn ++ "-" ++ key ++ "." ++ be))
                    (tf content config).1).1), ("config", config)])) p.1 = some e →
              isDict e = true := by
            intro p hp e he
            have hne : ¬(key = p.1) := by
              intro hcontra
              exact hkey (hcontra ▸ List.mem_map_of_mem Prod.fst hp)
            rw [aget_aset_ne _ _ _ _ hne] at he
            exact hwf p (by simp [hp]) e he
          have IH := ih
              { st with
                storage := (storageSave st.storage
                  (generate_filename fld (bn ++ "-" ++ key ++ "." ++ be))
                  (tf content config).1).2,
                data := aset st.data key
                  (JVal.obj [("path", JVal.str (storageSave st.storage
                      (generate_filename fld (bn ++ "-" ++ key ++ "." ++ be))
                      (tf content config).1).1), ("config", config)]) }
              (proc ++ [key]) hndr hwf'
          refine ⟨IH.1, ?_, ?_, ?_, ?_⟩
          · exact ⟨IH.2.1.1, IH.2.1.2.1, IH.2.1.2.2.1, IH.2.1.2.2.2⟩
          · intro b hbm
            refine IH.2.2.1 b ?_
            simp only [storageSave]
            exact List.mem_append_left _ hbm
          · intro k hk
            simp only [List.map_cons, List.mem_cons, not_or] at hk
            have h1 := IH.2.2.2.1 k hk.2
            constructor
            · rw [h1.1]
              exact aget_aset_ne _ _ _ _ (fun e => hk.1 e.symm)
            · rw [h1.2]
              simp [hk.1]
          · intro p hp
            rcases List.mem_cons.mp hp with hp1 | hp2
            · subst hp1
              refine ⟨fun htrue => ?_, fun _ => ?_⟩
              · rw [hskip] at htrue; cases htrue
              · have h1 := IH.2.2.2.1 key hkey
                constructor
                · rw [h1.2]; simp
                · refine ⟨(storageSave st.storage
                    (generate_filename fld (bn ++ "-" ++ key ++ "." ++ be))
                    (tf content config).1).1, ?_, ?_⟩
                  · rw [h1.1]
                    exact aget_aset_self _ _ _
                  · refine IH.2.2.1 _ ?_
                    simp [storageSave]
            · have hne : ¬(key = p.1) := by
                intro hcontra
                exact hkey (hcontra ▸ List.mem_map_of_mem Prod.fst hp2)
              have hagree : aget (aset st.data key
                  (JVal.obj [("path", JVal.str (storageSave st.storage
                      (generate_filename fld (bn ++ "-" ++ key ++ "." ++ be))
                      (tf content config).1).1), ("config", config)])) p.1
                  = aget st.data p.1 := aget_aset_ne _ _ _ _ hne
              have hsk := skipB_congr _ _ p.1 p.2 hagree
              have h2 := IH.2.2.2.2 p hp2
              have hne3 : ¬(p.1 = key) := fun e =>
                hkey (e ▸ List.mem_map_of_mem Prod.fst hp2)
              constructor
              · intro htrue
                have h3 := h2.1 (by rw [hsk]; exact htrue)
                constructor
                · rw [h3.1]; exact hagree
                · rw [h3.2]; simp [hne3]
              · intro hfalse
                have h3 := h2.2 (by rw [hsk]; exact hfalse)
                exact ⟨h3.1, h3.2⟩

/-! ## Filename lemmas -/

theorem takeWhile_stop {p : Char → Bool} (l : List Char) (q : Char) (X : List Char)
    (hall : ∀ c ∈ l, p c = true) (hq : p q = false) :
    (l ++ q :: X).takeWhile p = l := by
  induction l with
  | nil => simp [List.takeWhile, hq]
  | cons c t ih =>
      have hc := hall c (by simp)
      have ht := ih fun x hx => hall x (by simp [hx])
      simp [List.takeWhile, hc, ht]

theorem afterLastSlash_no_slash (cs : List Char) : '/' ∉ afterLastSlash cs := by
  unfold afterLastSlash
  intro hm
  rw [List.mem_reverse] at hm
  have := List.mem_takeWhile_imp hm
  simp at this

theorem afterLastSlash_append (ds bs : List Char) (h : '/' ∉ bs) :
    afterLastSlash (ds ++ '/' :: bs) = bs := by
  unfold afterLastSlash
  rw [List.reverse_append, List.reverse_cons, List.append_assoc,
      List.singleton_append,
      takeWhile_stop bs.reverse '/' ds.reverse
        (fun c hc => by
          have : ¬(c = '/') := fun e => h (e ▸ List.mem_reverse.mp hc)
          simpa using this)
        (by simp),
      List.reverse_reverse]

theorem normpathBase_no_slash (cs : List Char) (h : '/' ∉ cs) :
    '/' ∉ (normpathBase (String.mk cs)).data := by
  unfold normpathBase
  by_cases he : String.mk cs = ""
  · rw [if_pos he]; decide
  · rw [if_neg he]; exact h

theorem normpathBase_of_ne_nil (cs : List Char) (h : ¬(cs = [])) :
    normpathBase (String.mk cs) = String.mk cs := by
  unfold normpathBase
  rw [if_neg fun he => h (congrArg String.data he)]

theorem generate_filename_data (fld : FieldDef) (f : String) :
    afterLastSlash (generate_filename fld f).data
      = (normpathBase (String.mk (afterLastSlash f.data))).data := by
  rcases hfd : fld.directory with ⟨dcs⟩
  have hdata : (generate_filename fld f).data
      = dcs ++ '/' :: (normpathBase (String.mk (afterLastSlash f.data))).data := by
    unfold generate_filename
    rw [hfd]
    show (dcs ++ ['/']) ++ (normpathBase (String.mk (afterLastSlash f.data))).data
        = dcs ++ '/' :: (normpathBase (String.mk (afterLastSlash f.data))).data
    simp
  rw [hdata, afterLastSlash_append _ _
    (normpathBase_no_slash _ (afterLastSlash_no_slash f.data))]

theorem generate_filename_last (fld : FieldDef) (f : String)
    (h : ¬(afterLastSlash f.data = [])) :
    afterLastSlash (generate_filename fld f).data = afterLastSlash f.data := by
  rw [generate_filename_data, normpathBase_of_ne_nil _ h]

/-! ## Characterization of `save` -/

theorem save_char (tf : Transform) (fld : FieldDef) (st : FileState)
    (name0 : String) (content : List Nat) (saveFlag : Bool)
    (hdot : '.' ∈ afterLastSlash name0.data)
    (hnd : (fld.thumbnails.map Prod.fst).Nodup)
    (horig : "original" ∉ fld.thumbnails.map Prod.fst)
    (hwf : ∀ p ∈ fld.thumbnails, ∀ e, aget st.data p.1 = some e → isDict e = true) :
    (ImageWithProcessorsFieldFile.save tf fld st name0 content saveFlag).err = none
    ∧ (∃ stored,
        (ImageWithProcessorsFieldFile.save tf fld st name0 content saveFlag).st.name
          = some stored
        ∧ aget (ImageWithProcessorsFieldFile.save tf fld st name0 content saveFlag).st.data
            "original" = some (JVal.str stored)
        ∧ (stored, content)
            ∈ (ImageWithProcessorsFieldFile.save tf fld st name0 content saveFlag).st.storage)
    ∧ (ImageWithProcessorsFieldFile.save tf fld st name0 content saveFlag).st.size
        = some content.length
    ∧ (ImageWithProcessorsFieldFile.save tf fld st name0 content saveFlag).st.committed = true
    ∧ (ImageWithProcessorsFieldFile.save tf fld st name0 content saveFlag).st.instanceSaved
        = (st.instanceSaved || saveFlag)
    ∧ ∀ p ∈ fld.thumbnails,
        (skipB st.data p.1 p.2 = true →
          p.1 ∉ (ImageWithProcessorsFieldFile.save tf fld st name0 content saveFlag).processed
          ∧ aget (ImageWithProcessorsFieldFile.save tf fld st name0 content saveFlag).st.data
              p.1 = aget st.data p.1)
        ∧ (skipB st.data p.1 p.2 = false →
          p.1 ∈ (ImageWithProcessorsFieldFile.save tf fld st name0 content saveFlag).processed
          ∧ ∃ tp,
              aget (ImageWithProcessorsFieldFile.save tf fld st name0 content saveFlag).st.data
                p.1 = some (JVal.obj [("path", JVal.str tp), ("config", p.2)])
              ∧ (tp, (tf content p.2).1)
                ∈ (ImageWithProcessorsFieldFile.save tf fld st name0 content saveFlag).st.storage) := by
  have hne0 : ¬(afterLastSlash name0.data = []) := by
    intro h0; rw [h0] at hdot; exact (List.not_mem_nil '.') hdot
  have hdot2 : '.' ∈ afterLastSlash (generate_filename fld name0).data := by
    rw [generate_filename_last fld name0 hne0]; exact hdot
  obtain ⟨bn, be, hsplit⟩ :
      ∃ bn be, splitDot1 (afterLastSlash (generate_filename fld name0).data) = some (bn, be) := by
    unfold splitDot1
    rw [if_pos hdot2]
    exact ⟨_, _, rfl⟩
  have hsave : ImageWithProcessorsFieldFile.save tf fld st name0 content saveFlag
      = match runThumbs tf fld (String.mk bn) (String.mk be) content fld.thumbnails
          { st with storage := st.storage ++ [(availName st.storage (st.storage.length + 1) (generate_filename fld name0), content)], name := some (availName st.storage (st.storage.length + 1) (generate_filename fld name0)), data := aset st.data "original" (JVal.str (availName st.storage (st.storage.length + 1) (generate_filename fld name0))), size := some content.length, committed := true } [] with
        | (st2, proc, none) =>
          { st := (if saveFlag then { st2 with instanceSaved := true } else st2),
            processed := proc, err := none }
        | (st2, proc, some e) => { st := st2, processed := proc, err := some e } := by
    simp only [ImageWithProcessorsFieldFile.save, storageSave, hsplit]
  have horigne : ∀ p ∈ fld.thumbnails, ¬("original" = p.1) := by
    intro p hp e
    exact horig (e ▸ List.mem_map_of_mem Prod.fst hp)
  have hagree : ∀ p ∈ fld.thumbnails,
      aget ({ st with storage := st.storage ++ [(availName st.storage (st.storage.length + 1) (generate_filename fld name0), content)], name := some (availName st.storage (st.storage.length + 1) (generate_filename fld name0)), data := aset st.data "original" (JVal.str (availName st.storage (st.storage.length + 1) (generate_filename fld name0))), size := some content.length, committed := true } : FileState).data p.1 = aget st.data p.1 := by
    intro p hp
    exact aget_aset_ne _ _ _ _ (horigne p hp)
  have hwf1 : ∀ p ∈ fld.thumbnails, ∀ e,
      aget ({ st with storage := st.storage ++ [(availName st.storage (st.storage.length + 1) (generate_filename fld name0), content)], name := some (availName st.storage (st.storage.length + 1) (generate_filename fld name0)), data := aset st.data "original" (JVal.str (availName st.storage (st.storage.length + 1) (generate_filename fld name0))), size := some content.length, committed := true } : FileState).data p.1 = some e → isDict e = true := by
    intro p hp e he
    rw [hagree p hp] at he
    exact hwf p hp e he
  have CH := runThumbs_char tf fld (String.mk bn) (String.mk be) content fld.thumbnails
    { st with storage := st.storage ++ [(availName st.storage (st.storage.length + 1) (generate_filename fld name0), content)], name := some (availName st.storage (st.storage.length + 1) (generate_filename fld name0)), data := aset st.data "original" (JVal.str (availName st.storage (st.storage.length + 1) (generate_filename fld name0))), size := some content.length, committed := true } [] hnd hwf1
  rcases hr : runThumbs tf fld (String.mk bn) (String.mk be) content fld.thumbnails
    { st with storage := st.storage ++ [(availName st.storage (st.storage.length + 1) (generate_filename fld name0), content)], name := some (availName st.storage (st.storage.length + 1) (generate_filename fld name0)), data := aset st.data "original" (JVal.str (availName st.storage (st.storage.length + 1) (generate_filename fld name0))), size := some content.length, committed := true } [] with ⟨st2, proc, e2⟩
  rw [hr] at CH
  have he2 : e2 = none := CH.1
  subst he2
  have hfinal : ImageWithProcessorsFieldFile.save tf fld st name0 content saveFlag
      = { st := (if saveFlag then { st2 with instanceSaved := true } else st2),
          processed := proc, err := none } := by
    rw [hsave, hr]
  rw [hfinal]
  have hdata2 : (if saveFlag then { st2 with instanceSaved := true } else st2).data
      = st2.data := by cases saveFlag <;> rfl
  have hstor2 : (if saveFlag then { st2 with instanceSaved := true } else st2).storage
      = st2.storage := by cases saveFlag <;> rfl
  have hname2 : (if saveFlag then { st2 with instanceSaved := true } else st2).name
      = st2.name := by cases saveFlag <;> rfl
  have hsize2 : (if saveFlag then { st2 with instanceSaved := true } else st2).size
      = st2.size := by cases saveFlag <;> rfl
  have hcom2 : (if saveFlag then { st2 with instanceSaved := true } else st2).committed
      = st2.committed := by cases saveFlag <;> rfl
  refine ⟨rfl, ⟨availName st.storage (st.storage.length + 1) (generate_filename fld name0), ?_, ?_, ?_⟩, ?_, ?_, ?_, ?_⟩
  · show (if saveFlag then { st2 with instanceSaved := true } else st2).name
        = some (availName st.storage (st.storage.length + 1) (generate_filename fld name0))
    rw [hname2, CH.2.1.1]
  · show aget (if saveFlag then { st2 with instanceSaved := true } else st2).data "original"
        = some (JVal.str (availName st.storage (st.storage.length + 1) (generate_filename fld name0)))
    rw [hdata2, (CH.2.2.2.1 "original" horig).1]
    exact aget_aset_self _ _ _
  · show (availName st.storage (st.storage.length + 1) (generate_filename fld name0), content)
        ∈ (if saveFlag then { st2 with instanceSaved := true } else st2).storage
    rw [hstor2]
    refine CH.2.2.1 _ ?_
    simp
  · show (if saveFlag then { st2 with instanceSaved := true } else st2).size
        = some content.length
    rw [hsize2, CH.2.1.2.1]
  · show (if saveFlag then { st2 with instanceSaved := true } else st2).committed = true
    rw [hcom2, CH.2.1.2.2.1]
  · show (if saveFlag then { st2 with instanceSaved := true } else st2).instanceSaved
        = (st.instanceSaved || saveFlag)
    cases saveFlag with
    | true => simp
    | false =>
        simp only [Bool.or_false]
        show st2.instanceSaved = st.instanceSaved
        rw [CH.2.1.2.2.2]
  · intro p hp
    have hsk := skipB_congr _ st.data p.1 p.2 (hagree p hp)
    have HP := CH.2.2.2.2 p hp
    constructor
    · intro htrue
      have h3 := HP.1 (by rw [hsk]; exact htrue)
      constructor
      · show ¬(p.1 ∈ proc)
        rw [h3.2]
        exact List.not_mem_nil p.1
      · show aget (if saveFlag then { st2 with instanceSaved := true } else st2).data p.1
            = aget st.data p.1
        rw [hdata2, h3.1]
        exact hagree p hp
    · intro hfalse
      have h3 := HP.2 (by rw [hsk]; exact hfalse)
      refine ⟨h3.1, ?_⟩
      obtain ⟨tp, htp1, htp2⟩ := h3.2
      refine ⟨tp, ?_, ?_⟩
      · show aget (if saveFlag then { st2 with instanceSaved := true } else st2).data p.1
            = some (JVal.obj [("path", JVal.str tp), ("config", p.2)])
        rw [hdata2]; exact htp1
      · show (tp, (tf content p.2).1)
            ∈ (if saveFlag then { st2 with instanceSaved := true } else st2).storage
        rw [hstor2]; exact htp2

theorem save_nodot (tf : Transform) (fld : FieldDef) (st : FileState)
    (name0 : String) (content : List Nat) (saveFlag : Bool)
    (hne : ¬(afterLastSlash name0.data = []))
    (hnodot : '.' ∉ afterLastSlash name0.data) :
    ImageWithProcessorsFieldFile.save tf fld st name0 content saveFlag
      = { st := { st with
            storage := st.storage
              ++ [(availName st.storage (st.storage.length + 1) (generate_filename fld name0),
                   content)],
            name := some (availName st.storage (st.storage.length + 1)
              (generate_filename fld name0)),
            data := aset st.data "original"
              (JVal.str (availName st.storage (st.storage.length + 1)
                (generate_filename fld name0))),
            size := some content.length, committed := true },
          processed := [], err := some PyError.valueError } := by
  have hnodot2 : '.' ∉ afterLastSlash (generate_filename fld name0).data := by
    rw [generate_filename_last fld name0 hne]; exact hnodot
  have hsplit : splitDot1 (afterLastSlash (generate_filename fld name0).data) = none := by
    unfold splitDot1
    rw [if_neg hnodot2]
  simp only [ImageWithProcessorsFieldFile.save, storageSave, hsplit]

/-! ## Characterization of `delete` -/

/-- C4: `delete` removes only the original's stored name from the storage
backend; every other stored blob (in particular every variant file) and every
non-`"original"` Document entry is left unchanged, while `Document["original"]`
and the bound name become null, the cached size is dropped and the value is
marked uncommitted. -/
theorem C4_delete_removes_only_original (st : FileState) (saveFlag : Bool) (n : String)
    (hname : st.name = some n) :
    (ImageWithProcessorsFieldFile.delete st saveFlag).storage
        = st.storage.filter (fun p => ¬(p.1 = n))
    ∧ (∀ p ∈ st.storage, ¬(p.1 = n) →
        p ∈ (ImageWithProcessorsFieldFile.delete st saveFlag).storage)
    ∧ (∀ k, ¬(k = "original") →
        aget (ImageWithProcessorsFieldFile.delete st saveFlag).data k = aget st.data k)
    ∧ aget (ImageWithProcessorsFieldFile.delete st saveFlag).data "original" = some JVal.null
    ∧ (ImageWithProcessorsFieldFile.delete st saveFlag).name = none
    ∧ (ImageWithProcessorsFieldFile.delete st saveFlag).size = none
    ∧ (ImageWithProcessorsFieldFile.delete st saveFlag).committed = false := by
  unfold ImageWithProcessorsFieldFile.delete storageDelete
  rw [hname]
  refine ⟨rfl, ?_, ?_, ?_, rfl, rfl, rfl⟩
  · intro p hp hpn
    simp only [List.mem_filter]
    exact ⟨hp, by simpa using hpn⟩
  · intro k hk
    exact aget_aset_ne _ _ _ _ (fun e => hk e.symm)
  · exact aget_aset_self _ _ _

/-! ## Decode and loads facts -/

theorem jsonDecode_dumps (v : JVal) (h : wfJ v = true) :
    jsonDecode (JSONField.dumps v) = some (canon v) := by
  have hv := rt_val v ((enc v).length + 1) [] (by omega) h rfl
  rw [List.append_nil] at hv
  unfold jsonDecode
  rw [show (JSONField.dumps v).data = enc v from rfl, hv]

/-- C2 (amended): for every well-formed value (strings free of characters the
real encoder would escape, dict keys distinct) whose top level is not itself a
string or date/time value, decoding the encoded form returns the canonical
image of the original: mappings, lists and non-string scalars round-trip
unchanged, and nested date/time values come back as their canonical ISO
string rather than their original type.  A top-level string does not
round-trip, because `loads` re-decodes a decoded string once more. -/
theorem C2_roundtrip_canon (v : JVal) (hwf : wfJ v = true) (hns : isStrVal v = false) :
    JSONField.loads (JSONField.dumps v) = some (canon v) := by
  have hd := jsonDecode_dumps v hwf
  unfold JSONField.loads
  rw [hd]
  cases v with
  | str s => simp [isStrVal] at hns
  | dt s => simp [isStrVal] at hns
  | null => rfl
  | boolean b => rfl
  | num n => rfl
  | arr xs => rfl
  | obj kvs => rfl

theorem loads_of_decode_none (s : String) (h : jsonDecode s = none) :
    JSONField.loads s = none := by
  unfold JSONField.loads
  rw [h]

theorem loads_of_decode_str (s t : String) (h : jsonDecode s = some (JVal.str t)) :
    JSONField.loads s = jsonDecode t := by
  unfold JSONField.loads
  rw [h]

theorem loads_of_decode_other (s : String) (v : JVal) (h : jsonDecode s = some v)
    (hns : isStrVal v = false) : JSONField.loads s = some v := by
  unfold JSONField.loads
  rw [h]
  cases v with
  | str s2 => simp [isStrVal] at hns
  | dt s2 => simp [isStrVal] at hns
  | null => rfl
  | boolean b => rfl
  | num n => rfl
  | arr xs => rfl
  | obj kvs => rfl

/-! ## The claims -/

/-- C1: during `MultiVariantFile.save`, for every variant key declared in the
field's thumbnails mapping the transform is skipped if and only if the
Document already has an entry for that key whose stored `config` value equals
(by value equality) the field's currently declared config for that key;
otherwise the variant is regenerated, its bytes are written to the storage
backend, and the Document entry for the key becomes
`{path: stored-name, config: config}`. -/
theorem C1_variant_skip_iff_config_match (tf : Transform) (fld : FieldDef) (st : FileState)
    (name0 : String) (content : List Nat) (saveFlag : Bool)
    (hdot : '.' ∈ afterLastSlash name0.data)
    (hnd : (fld.thumbnails.map Prod.fst).Nodup)
    (horig : "original" ∉ fld.thumbnails.map Prod.fst)
    (hwf : ∀ p ∈ fld.thumbnails, ∀ e, aget st.data p.1 = some e → isDict e = true) :
    (ImageWithProcessorsFieldFile.save tf fld st name0 content saveFlag).err = none
    ∧ ∀ p ∈ fld.thumbnails,
        (p.1 ∉ (ImageWithProcessorsFieldFile.save tf fld st name0 content saveFlag).processed
          ↔ skipB st.data p.1 p.2 = true)
        ∧ (skipB st.data p.1 p.2 = true →
            aget (ImageWithProcessorsFieldFile.save tf fld st name0 content saveFlag).st.data
              p.1 = aget st.data p.1)
        ∧ (skipB st.data p.1 p.2 = false →
            ∃ tp,
              aget (ImageWithProcessorsFieldFile.save tf fld st name0 content saveFlag).st.data
                p.1 = some (JVal.obj [("path", JVal.str tp), ("config", p.2)])
              ∧ (tp, (tf content p.2).1)
                ∈ (ImageWithProcessorsFieldFile.save tf fld st name0 content saveFlag).st.storage) := by
  have SC := save_char tf fld st name0 content saveFlag hdot hnd horig hwf
  refine ⟨SC.1, ?_⟩
  intro p hp
  have HP := SC.2.2.2.2.2 p hp
  refine ⟨⟨?_, fun ht => (HP.1 ht).1⟩, fun ht => (HP.1 ht).2, fun hf => (HP.2 hf).2⟩
  intro hnotin
  cases hsk : skipB st.data p.1 p.2 with
  | true => rfl
  | false => exact absurd (HP.2 hsk).1 hnotin

/-- Witness for C1 at a concrete save: field `{small: 1, large: 2}`, empty
prior state, name `photo.jpg`. -/
theorem C1_variant_skip_iff_config_match_witness :
    ('.' ∈ afterLastSlash ("photo.jpg" : String).data)
    ∧ (fldDemo1.thumbnails.map Prod.fst).Nodup
    ∧ ("original" ∉ fldDemo1.thumbnails.map Prod.fst)
    ∧ ((ImageWithProcessorsFieldFile.save tfDemo fldDemo1 fileState0 "photo.jpg" [1] true).err
        = none
      ∧ ∀ p ∈ fldDemo1.thumbnails,
        (p.1 ∉ (ImageWithProcessorsFieldFile.save tfDemo fldDemo1 fileState0 "photo.jpg" [1]
            true).processed
          ↔ skipB fileState0.data p.1 p.2 = true)
        ∧ (skipB fileState0.data p.1 p.2 = true →
            aget (ImageWithProcessorsFieldFile.save tfDemo fldDemo1 fileState0 "photo.jpg" [1]
              true).st.data p.1 = aget fileState0.data p.1)
        ∧ (skipB fileState0.data p.1 p.2 = false →
            ∃ tp,
              aget (ImageWithProcessorsFieldFile.save tfDemo fldDemo1 fileState0 "photo.jpg" [1]
                true).st.data p.1 = some (JVal.obj [("path", JVal.str tp), ("config", p.2)])
              ∧ (tp, (tfDemo [1] p.2).1)
                ∈ (ImageWithProcessorsFieldFile.save tfDemo fldDemo1 fileState0 "photo.jpg" [1]
                  true).st.storage)) :=
  ⟨by decide, by decide, by decide,
   C1_variant_skip_iff_config_match tfDemo fldDemo1 fileState0 "photo.jpg" [1] true
     (by decide) (by decide) (by decide) (fun p hp e he => nomatch he)⟩

/-- C2 is refuted at a top-level scalar string: `"abc"` is a JSON primitive,
yet decoding its encoded form yields `None`, not the original, because the
decoded string triggers the retry decode, which fails. -/
theorem C2_counterexample_top_level_string :
    JSONField.loads (JSONField.dumps (JVal.str "abc")) = none
    ∧ ¬(JSONField.loads (JSONField.dumps (JVal.str "abc")) = some (JVal.str "abc")) :=
  ⟨rfl, fun h => nomatch h⟩

/-- Witness for C2 on a mapping with a number and a date/time value: the
date comes back as its ISO string, everything else unchanged. -/
theorem C2_roundtrip_canon_witness :
    wfJ (JVal.obj [("a", JVal.num 1), ("d", JVal.dt "2020-01-02")]) = true
    ∧ isStrVal (JVal.obj [("a", JVal.num 1), ("d", JVal.dt "2020-01-02")]) = false
    ∧ JSONField.loads (JSONField.dumps (JVal.obj [("a", JVal.num 1), ("d", JVal.dt "2020-01-02")]))
        = some (canon (JVal.obj [("a", JVal.num 1), ("d", JVal.dt "2020-01-02")])) :=
  ⟨by decide, rfl,
   C2_roundtrip_canon (JVal.obj [("a", JVal.num 1), ("d", JVal.dt "2020-01-02")])
     (by decide) rfl⟩

/-- C3 is refuted on its own scenario: after saving with `{small: 1, large: 2}`
and saving again (new content) with `small` mutated to config `3`, only
`small`'s transform runs; `large` is skipped because its stored config still
matches, and its Document entry keeps pointing at the thumbnail of the old
content. -/
theorem C3_counterexample_sibling_not_regenerated :
    (ImageWithProcessorsFieldFile.save tfDemo fldDemo2
      (ImageWithProcessorsFieldFile.save tfDemo fldDemo1 fileState0 "photo.jpg" [1] true).st
      "photo.jpg" [2] true).processed = ["small"]
    ∧ ¬("large" ∈ (ImageWithProcessorsFieldFile.save tfDemo fldDemo2
        (ImageWithProcessorsFieldFile.save tfDemo fldDemo1 fileState0 "photo.jpg" [1] true).st
        "photo.jpg" [2] true).processed)
    ∧ aget (ImageWithProcessorsFieldFile.save tfDemo fldDemo2
        (ImageWithProcessorsFieldFile.save tfDemo fldDemo1 fileState0 "photo.jpg" [1] true).st
        "photo.jpg" [2] true).st.data "large"
      = some (JVal.obj [("path", JVal.str "up/photo-large.jpg"), ("config", JVal.num 2)])
    ∧ aget (ImageWithProcessorsFieldFile.save tfDemo fldDemo1 fileState0 "photo.jpg" [1]
        true).st.data "large"
      = some (JVal.obj [("path", JVal.str "up/photo-large.jpg"), ("config", JVal.num 2)]) :=
  ⟨rfl, by decide, rfl, rfl⟩

/-- C3 (amended): in the claim's scenario the second save regenerates `small`
(new stored name and new bytes under the mutated config) but does not
regenerate `large`: the skip check is purely config-equality based, so a
content change alone never re-invokes the transform for a variant whose
stored config still equals the declared one; `large`'s Document entry is
unchanged. -/
theorem C3_config_gated_regeneration (tf : Transform) (b1 b2 : List Nat) :
    (ImageWithProcessorsFieldFile.save tf fldDemo1 fileState0 "photo.jpg" b1 true).processed
      = ["small", "large"]
    ∧ (ImageWithProcessorsFieldFile.save tf fldDemo2
        (ImageWithProcessorsFieldFile.save tf fldDemo1 fileState0 "photo.jpg" b1 true).st
        "photo.jpg" b2 true).processed = ["small"]
    ∧ aget (ImageWithProcessorsFieldFile.save tf fldDemo2
        (ImageWithProcessorsFieldFile.save tf fldDemo1 fileState0 "photo.jpg" b1 true).st
        "photo.jpg" b2 true).st.data "large"
      = aget (ImageWithProcessorsFieldFile.save tf fldDemo1 fileState0 "photo.jpg" b1
          true).st.data "large"
    ∧ aget (ImageWithProcessorsFieldFile.save tf fldDemo2
        (ImageWithProcessorsFieldFile.save tf fldDemo1 fileState0 "photo.jpg" b1 true).st
        "photo.jpg" b2 true).st.data "small"
      = some (JVal.obj [("path", JVal.str "up/photo-small.jpg_"), ("config", JVal.num 3)])
    ∧ aget (ImageWithProcessorsFieldFile.save tf fldDemo2
        (ImageWithProcessorsFieldFile.save tf fldDemo1 fileState0 "photo.jpg" b1 true).st
        "photo.jpg" b2 true).st.storage "up/photo-small.jpg_" = some ((tf b2 (JVal.num 3)).1) :=
  ⟨rfl, rfl, rfl, rfl, rfl⟩

/-- Witness for C4: a state holding an original and one variant, both in
storage; deleting keeps the variant file and its Document entry. -/
theorem C4_delete_removes_only_original_witness :
    (FileState.mk
      [("original", JVal.str "up/a.jpg"),
       ("thumb", JVal.obj [("path", JVal.str "up/a-t.jpg"), ("config", JVal.num 1)])]
      (some "up/a.jpg") (some 2) true
      [("up/a.jpg", [7]), ("up/a-t.jpg", [8])] false).name = some "up/a.jpg"
    ∧ ((ImageWithProcessorsFieldFile.delete (FileState.mk
        [("original", JVal.str "up/a.jpg"),
         ("thumb", JVal.obj [("path", JVal.str "up/a-t.jpg"), ("config", JVal.num 1)])]
        (some "up/a.jpg") (some 2) true
        [("up/a.jpg", [7]), ("up/a-t.jpg", [8])] false) true).storage
          = [("up/a.jpg", [7]), ("up/a-t.jpg", [8])].filter (fun p => ¬(p.1 = "up/a.jpg"))
      ∧ (∀ p ∈ [("up/a.jpg", [7]), ("up/a-t.jpg", [8])], ¬(p.1 = "up/a.jpg") →
          p ∈ (ImageWithProcessorsFieldFile.delete (FileState.mk
            [("original", JVal.str "up/a.jpg"),
             ("thumb", JVal.obj [("path", JVal.str "up/a-t.jpg"), ("config", JVal.num 1)])]
            (some "up/a.jpg") (some 2) true
            [("up/a.jpg", [7]), ("up/a-t.jpg", [8])] false) true).storage)
      ∧ (∀ k, ¬(k = "original") →
          aget (ImageWithProcessorsFieldFile.delete (FileState.mk
            [("original", JVal.str "up/a.jpg"),
             ("thumb", JVal.obj [("path", JVal.str "up/a-t.jpg"), ("config", JVal.num 1)])]
            (some "up/a.jpg") (some 2) true
            [("up/a.jpg", [7]), ("up/a-t.jpg", [8])] false) true).data k
          = aget [("original", JVal.str "up/a.jpg"),
                  ("thumb", JVal.obj [("path", JVal.str "up/a-t.jpg"), ("config", JVal.num 1)])] k)
      ∧ aget (ImageWithProcessorsFieldFile.delete (FileState.mk
          [("original", JVal.str "up/a.jpg"),
           ("thumb", JVal.obj [("path", JVal.str "up/a-t.jpg"), ("config", JVal.num 1)])]
          (some "up/a.jpg") (some 2) true
          [("up/a.jpg", [7]), ("up/a-t.jpg", [8])] false) true).data "original"
          = some JVal.null
      ∧ (ImageWithProcessorsFieldFile.delete (FileState.mk
          [("original", JVal.str "up/a.jpg"),
           ("thumb", JVal.obj [("path", JVal.str "up/a-t.jpg"), ("config", JVal.num 1)])]
          (some "up/a.jpg") (some 2) true
          [("up/a.jpg", [7]), ("up/a-t.jpg", [8])] false) true).name = none
      ∧ (ImageWithProcessorsFieldFile.delete (FileState.mk
          [("original", JVal.str "up/a.jpg"),
           ("thumb", JVal.obj [("path", JVal.str "up/a-t.jpg"), ("config", JVal.num 1)])]
          (some "up/a.jpg") (some 2) true
          [("up/a.jpg", [7]), ("up/a-t.jpg", [8])] false) true).size = none
      ∧ (ImageWithProcessorsFieldFile.delete (FileState.mk
          [("original", JVal.str "up/a.jpg"),
           ("thumb", JVal.obj [("path", JVal.str "up/a-t.jpg"), ("config", JVal.num 1)])]
          (some "up/a.jpg") (some 2) true
          [("up/a.jpg", [7]), ("up/a-t.jpg", [8])] false) true).committed = false) :=
  ⟨rfl, C4_delete_removes_only_original _ true "up/a.jpg" rfl⟩

/-- C5 is refuted: `"small"` is among the declared thumbnail keys, yet the
access raises a lookup (key) error because the Document's entry for it is a
mapping without a `'path'` key. -/
theorem C5_counterexample_declared_key_raises :
    (aget fldDemo1.thumbnails "small").isSome = true
    ∧ ImageWithProcessorsFieldFile.getitem fldDemo1 [("small", JVal.obj [])] "small"
        = Except.error PyError.keyError :=
  ⟨rfl, rfl⟩

/-- C5 (amended): provided each Document entry present under the requested
key is a mapping carrying a `'path'` value (as the entries `save` writes
always are), variant access raises a lookup error if and only if the key is
not among the declared thumbnail keys; a declared key with no entry returns
a handle bound to a null name, and a declared key with an entry returns a
handle bound to the entry's stored path. -/
theorem C5_getitem_spec (fld : FieldDef) (data : List (String × JVal)) (key : String)
    (hwf : ∀ e, aget data key = some e →
      ∃ kvs, e = JVal.obj kvs ∧ (aget kvs "path").isSome = true) :
    (ImageWithProcessorsFieldFile.getitem fld data key = Except.error PyError.keyError
      ↔ (aget fld.thumbnails key).isSome = false)
    ∧ ((aget fld.thumbnails key).isSome = true → aget data key = none →
        ImageWithProcessorsFieldFile.getitem fld data key = Except.ok none)
    ∧ (∀ kvs p, (aget fld.thumbnails key).isSome = true →
        aget data key = some (JVal.obj kvs) → aget kvs "path" = some p →
        ImageWithProcessorsFieldFile.getitem fld data key = Except.ok (some p)) := by
  unfold ImageWithProcessorsFieldFile.getitem
  by_cases hdecl : (aget fld.thumbnails key).isSome = true
  · rw [if_pos hdecl]
    cases hd : aget data key with
    | none =>
        refine ⟨?_, fun _ _ => rfl, ?_⟩
        · constructor
          · intro h; simp at h
          · intro h; simp [hdecl] at h
        · intro kvs p _ hcontra _
          simp at hcontra
    | some e =>
        obtain ⟨kvs0, rfl, hpath⟩ := hwf e hd
        obtain ⟨p0, hp0⟩ := Option.isSome_iff_exists.mp hpath
        simp only [hd, hp0]
        refine ⟨?_, fun _ h => by simp at h, ?_⟩
        · constructor
          · intro h; simp at h
          · intro h; simp [hdecl] at h
        intro kvs p _ he hpth
        injection he with he1
        injection he1 with he2
        subst he2
        have hpp : some p0 = some p := hp0.symm.trans hpth
        injection hpp with hpp1
        rw [hpp1]
  · rw [if_neg hdecl]
    have hfalse : (aget fld.thumbnails key).isSome = false := by
      cases hiso : (aget fld.thumbnails key).isSome
      · rfl
      · exact absurd hiso hdecl
    exact ⟨⟨fun _ => hfalse, fun _ => rfl⟩,
           fun h => absurd h hdecl,
           fun kvs p h _ _ => absurd h hdecl⟩

/-- Witness for C5: a well-formed entry under the declared key `small`. -/
theorem C5_getitem_spec_witness :
    (∀ e, aget [("small", JVal.obj [("path", JVal.str "up/x.jpg"), ("config", JVal.num 1)])]
        "small" = some e →
      ∃ kvs, e = JVal.obj kvs ∧ (aget kvs "path").isSome = true)
    ∧ ((ImageWithProcessorsFieldFile.getitem fldDemo1
        [("small", JVal.obj [("path", JVal.str "up/x.jpg"), ("config", JVal.num 1)])] "small"
          = Except.error PyError.keyError
        ↔ (aget fldDemo1.thumbnails "small").isSome = false)
      ∧ ((aget fldDemo1.thumbnails "small").isSome = true →
          aget [("small", JVal.obj [("path", JVal.str "up/x.jpg"), ("config", JVal.num 1)])]
            "small" = none →
          ImageWithProcessorsFieldFile.getitem fldDemo1
            [("small", JVal.obj [("path", JVal.str "up/x.jpg"), ("config", JVal.num 1)])]
            "small" = Except.ok none)
      ∧ (∀ kvs p, (aget fldDemo1.thumbnails "small").isSome = true →
          aget [("small", JVal.obj [("path", JVal.str "up/x.jpg"), ("config", JVal.num 1)])]
            "small" = some (JVal.obj kvs) → aget kvs "path" = some p →
          ImageWithProcessorsFieldFile.getitem fldDemo1
            [("small", JVal.obj [("path", JVal.str "up/x.jpg"), ("config", JVal.num 1)])]
            "small" = Except.ok (some p))) :=
  ⟨fun e he => by cases he; exact ⟨_, rfl, rfl⟩,
   C5_getitem_spec fldDemo1
     [("small", JVal.obj [("path", JVal.str "up/x.jpg"), ("config", JVal.num 1)])] "small"
     (fun e he => by cases he; exact ⟨_, rfl, rfl⟩)⟩

/-- C6: the claim is right about the intent (a decode failure must be treated
as an absent document, warned about, and never raise, since it runs on every
attribute access) and the code breaks it: `loads` does fail soft to `None`
and the plain JSON descriptor returns that `None`, but no warning is logged
on a parse failure (the log call sits only in the double-decode branch), and
the image-with-variants descriptor then calls `.get` on the `None`, raising
`AttributeError` on every attribute access over the malformed value. -/
theorem C6_malformed_json_image_access_raises :
    JSONField.loads "corrupt" = none
    ∧ JSONField.loadsWarns "corrupt" = false
    ∧ JSONFieldDescriptor.get ⟨some (JVal.str "corrupt"), none⟩
        = Except.ok (JVal.null, ⟨some (JVal.str "corrupt"), some JVal.null⟩)
    ∧ ImageWithProcessorsDesciptor.get ⟨some (JVal.str "corrupt"), none⟩
        = Except.error PyError.attributeError :=
  ⟨rfl, rfl, rfl, rfl⟩

/-- C7 is refuted: on the double-encoded input `"123"` the retry decode
succeeds with the number `123`, which is neither a mapping nor `None`; the
result is returned as-is, not treated as absent data. -/
theorem C7_counterexample_retry_value_returned :
    JSONField.loads "\"123\"" = some (JVal.num 123)
    ∧ ¬(JSONField.loads "\"123\"" = none)
    ∧ isDict (JVal.num 123) = false :=
  ⟨rfl, by rw [show JSONField.loads "\"123\"" = some (JVal.num 123) from rfl]; simp, rfl⟩

/-- C7 (amended): `loads` returns null on a parse failure; when the first
decode yields a string, exactly one retry decode of that string is attempted
and `loads` returns the retry's result verbatim — null when the retry fails
to parse, but any non-mapping value the retry produces is returned as-is
(the field then holds that value rather than behaving as unset). -/
theorem C7_loads_decode_retry :
    (∀ s, jsonDecode s = none → JSONField.loads s = none)
    ∧ (∀ s t, jsonDecode s = some (JVal.str t) → JSONField.loads s = jsonDecode t)
    ∧ (∀ s v, jsonDecode s = some v → isStrVal v = false → JSONField.loads s = some v) :=
  ⟨loads_of_decode_none, loads_of_decode_str, loads_of_decode_other⟩

/-- Witness for C7: a failing parse and a double-encoded string. -/
theorem C7_loads_decode_retry_witness :
    jsonDecode "nope" = none ∧ JSONField.loads "nope" = none
    ∧ jsonDecode "\"7\"" = some (JVal.str "7")
    ∧ JSONField.loads "\"7\"" = jsonDecode "7" :=
  ⟨rfl, C7_loads_decode_retry.1 "nope" rfl, rfl,
   C7_loads_decode_retry.2.1 "\"7\"" "7" rfl⟩

/-- C8 is refuted on the image-with-variants field's descriptor: its
`__set__` body is `pass`, so a write stores nothing — neither the attribute
slot nor the cache slot receives the assigned value. -/
theorem C8_counterexample_image_write_discarded :
    ImageWithProcessorsDesciptor.set ⟨none, none⟩ (JVal.obj [("a", JVal.num 1)]) = ⟨none, none⟩
    ∧ ¬((ImageWithProcessorsDesciptor.set ⟨none, none⟩
          (JVal.obj [("a", JVal.num 1)])).attSlot = some (JVal.obj [("a", JVal.num 1)])) :=
  ⟨rfl, fun h => nomatch h⟩

theorem jsonGet_cache (inst : PyInstance) (d : JVal) (inst2 : PyInstance)
    (h : JSONFieldDescriptor.get inst = Except.ok (d, inst2)) :
    inst2.cacheSlot = some d := by
  unfold JSONFieldDescriptor.get at h
  cases hc : inst.cacheSlot with
  | some c =>
      rw [hc] at h
      simp only [Except.ok.injEq, Prod.mk.injEq] at h
      obtain ⟨h1, h2⟩ := h
      rw [← h2, ← h1]
      exact hc
  | none =>
      rw [hc] at h
      by_cases hdic : isDict (inst.attSlot.getD (JVal.obj [])) = true
      · rw [if_pos hdic] at h
        simp only [Except.ok.injEq, Prod.mk.injEq] at h
        obtain ⟨h1, h2⟩ := h
        rw [← h2, ← h1]
      · rw [if_neg hdic] at h
        cases hp : pyLoads (inst.attSlot.getD (JVal.obj [])) with
        | ok dd =>
            rw [hp] at h
            simp only [Except.ok.injEq, Prod.mk.injEq] at h
            obtain ⟨h1, h2⟩ := h
            rw [← h2, ← h1]
        | error e =>
            rw [hp] at h
            simp at h

/-- C8 (amended): for the plain JSON field's descriptor a write is eager
(the raw assigned value lands in both the attribute slot and the per-instance
cache slot at once), and reads are cache-stable: once a read has populated
the cache, re-reading returns the very same cached value and state, and an
in-place mutation of the cached document is what subsequent reads return.
The image-with-variants descriptor's write, however, is a no-op: the
assigned value is discarded and the instance is left untouched. -/
theorem C8_descriptor_write_read :
    (∀ inst v, (JSONFieldDescriptor.set inst v).attSlot = some v
      ∧ (JSONFieldDescriptor.set inst v).cacheSlot = some v)
    ∧ (∀ inst d inst2, JSONFieldDescriptor.get inst = Except.ok (d, inst2) →
        JSONFieldDescriptor.get inst2 = Except.ok (d, inst2)
        ∧ ∀ f, JSONFieldDescriptor.get (cacheMutate inst2 f)
            = Except.ok (f d, cacheMutate inst2 f))
    ∧ (∀ inst v, ImageWithProcessorsDesciptor.set inst v = inst) := by
  refine ⟨fun inst v => ⟨rfl, rfl⟩, ?_, fun inst v => rfl⟩
  intro inst d inst2 h
  have hc := jsonGet_cache inst d inst2 h
  constructor
  · unfold JSONFieldDescriptor.get
    rw [hc]
  · intro f
    unfold JSONFieldDescriptor.get cacheMutate
    rw [hc]
    rfl

/-- Witness for C8: a fresh instance's first read caches the default empty
document; re-reading returns the same value and state. -/
theorem C8_descriptor_write_read_witness :
    JSONFieldDescriptor.get ⟨none, none⟩
      = Except.ok (JVal.obj [], ⟨none, some (JVal.obj [])⟩)
    ∧ JSONFieldDescriptor.get ⟨none, some (JVal.obj [])⟩
      = Except.ok (JVal.obj [], ⟨none, some (JVal.obj [])⟩) :=
  ⟨rfl,
   (C8_descriptor_write_read.2.1 ⟨none, none⟩ (JVal.obj []) ⟨none, some (JVal.obj [])⟩ rfl).1⟩

/-- C9: the claim matches the spec's intent for the pre-save hook, and the
code delivers it only on the happy path of the image field: there the hook
returns the in-memory Document.  On a plain `JSONField` the descriptor read
yields the decoded value itself, which has no attribute `data`, so the hook
raises `AttributeError`; and the fallback branch would evaluate
`self.field.value_from_object` although a `JSONField` has no attribute
`field`, so the documented fallback to the raw assigned value can never
happen. -/
theorem C9_pre_save_attribute_error :
    JSONField.pre_save ⟨some (JVal.obj [("a", JVal.num 1)]), none⟩
      = Except.error PyError.attributeError
    ∧ ImageWithProcessorsField.pre_save ⟨some (JVal.obj [("a", JVal.num 1)]), none⟩
      = Except.ok (JVal.obj [("a", JVal.num 1)]) :=
  ⟨rfl, rfl⟩

/-- C10 (amended): for every desired name whose final path component is
NONEMPTY and contains no dot, the basename split in `save` raises
`ValueError` before any variant is generated — but only after the original
has already been written to storage and recorded in the Document.  The
nonemptiness proviso is forced by `os.path.normpath` in `get_filename`
(fields.py line 212): an empty basename normalizes to the dotted `"."`,
so for such names the split succeeds and `save` does not raise. -/
theorem C10_save_dotless_name_value_error (tf : Transform) (fld : FieldDef) (st : FileState)
    (name0 : String) (content : List Nat) (saveFlag : Bool)
    (hne : ¬(afterLastSlash name0.data = []))
    (hnodot : '.' ∉ afterLastSlash name0.data) :
    (ImageWithProcessorsFieldFile.save tf fld st name0 content saveFlag).err
      = some PyError.valueError
    ∧ (ImageWithProcessorsFieldFile.save tf fld st name0 content saveFlag).processed = []
    ∧ ∃ stored,
        (ImageWithProcessorsFieldFile.save tf fld st name0 content saveFlag).st.name
          = some stored
        ∧ aget (ImageWithProcessorsFieldFile.save tf fld st name0 content saveFlag).st.data
            "original" = some (JVal.str stored)
        ∧ (stored, content)
          ∈ (ImageWithProcessorsFieldFile.save tf fld st name0 content saveFlag).st.storage := by
  rw [save_nodot tf fld st name0 content saveFlag hne hnodot]
  refine ⟨rfl, rfl,
    availName st.storage (st.storage.length + 1) (generate_filename fld name0), rfl, ?_, ?_⟩
  · exact aget_aset_self _ _ _
  · simp

/-- Witness for C10 at the nonempty dotless name `photo`. -/
theorem C10_save_dotless_name_value_error_witness :
    (¬(afterLastSlash ("photo" : String).data = []))
    ∧ ('.' ∉ afterLastSlash ("photo" : String).data)
    ∧ ((ImageWithProcessorsFieldFile.save tfDemo fldDemo1 fileState0 "photo" [1] true).err
        = some PyError.valueError
      ∧ (ImageWithProcessorsFieldFile.save tfDemo fldDemo1 fileState0 "photo" [1]
          true).processed = []
      ∧ ∃ stored,
          (ImageWithProcessorsFieldFile.save tfDemo fldDemo1 fileState0 "photo" [1]
            true).st.name = some stored
          ∧ aget (ImageWithProcessorsFieldFile.save tfDemo fldDemo1 fileState0 "photo" [1]
              true).st.data "original" = some (JVal.str stored)
          ∧ (stored, [1])
            ∈ (ImageWithProcessorsFieldFile.save tfDemo fldDemo1 fileState0 "photo" [1]
              true).st.storage) :=
  ⟨by decide, by decide,
   C10_save_dotless_name_value_error tfDemo fldDemo1 fileState0 "photo" [1] true
     (by decide) (by decide)⟩

/-- C10, counterexample to the original claim: the name `dir/` has an EMPTY
final path component, hence a dotless basename, yet `save` raises nothing:
`os.path.normpath` (fields.py line 212) turns the empty sanitized basename
into `"."`, whose `split('.', 1)` yields two (empty) parts, so the unpack
succeeds and every declared variant is generated. -/
theorem C10_counterexample_empty_basename :
    ('.' ∉ afterLastSlash ("dir/" : String).data)
    ∧ (ImageWithProcessorsFieldFile.save tfDemo fldDemo1 fileState0 "dir/" [1] true).err = none
    ∧ (ImageWithProcessorsFieldFile.save tfDemo fldDemo1 fileState0 "dir/" [1] true).processed
        = ["small", "large"] :=
  ⟨by decide, rfl, rfl⟩
